import Mathlib

/-!
Verification development for the `dspy` historical-market simulation engine
(`src/dspy/sim/simulation_engine.py`).

Modelling conventions:
* Python floats (prices, quantities, fees, PnL) are modelled as rationals `ℚ`;
  the claims under study are about the algebraic accounting, not float rounding.
* Timestamps are Python integers (nanoseconds), modelled as `ℤ`.
* Python dicts keyed by symbol are modelled as association lists in insertion
  order (`List (String × _)`); Python dicts preserve insertion order.
* The two sources of randomness (`np.random.normal` latency draws in
  `_simulate_latency`, `random.random()` fill draws in
  `_should_fill_limit_order`) are modelled as pre-sampled oracle tapes
  (`Nat → Nat` for latency in nanoseconds — `_simulate_latency` clamps at 0,
  so a draw is a non-negative integer — and `Nat → Bool` for fill decisions),
  each consumed through a counter.
-/

namespace Dspy

/-- Order side, Python strings "Buy" / "Sell". -/
inductive Side where
  | Buy : Side
  | Sell : Side
deriving DecidableEq, Repr

/-- Order type, Python strings "Market" / "Limit". -/
inductive OrderType where
  | Market : OrderType
  | Limit : OrderType
deriving DecidableEq, Repr

/-- Order status; the engine only ever uses "New" (constructor) and "Filled"
(`_execute_order`). -/
inductive OrderStatus where
  | New : OrderStatus
  | Filled : OrderStatus
deriving DecidableEq, Repr

/-- One order-book snapshot row, restricted to the fields the engine core
reads: `ts`, the level-0 prices and amounts (`bids[0].price`,
`bids[0].amount`, `asks[0].price`, `asks[0].amount`), and the optional
arrival time `ts_local` (absent rows default the unused fields). -/
structure Snapshot where
  ts : Int
  bid0_price : Rat
  ask0_price : Rat
  bid0_amount : Rat := 0
  ask0_amount : Rat := 0
  ts_local : Option Int := none
deriving DecidableEq, Repr

/-- Python class `SimulationOrder` (the `executions` list is never read and is
omitted). Order ids are opaque unique tokens (uuid4 in Python), modelled as
naturals from a counter. -/
structure SimulationOrder where
  order_id : Nat
  symbol : String
  side : Side
  qty : Rat
  price : Rat
  order_type : OrderType
  timestamp : Int
  submission_time : Int
  execution_time : Int
  status : OrderStatus
  filled_qty : Rat
  avg_price : Rat
deriving DecidableEq, Repr

/-- Python class `SimulationPosition`. -/
structure SimulationPosition where
  symbol : String
  size : Rat
  avg_price : Rat
  mark_price : Rat
  unrealized_pnl : Rat
  realized_pnl : Rat
  leverage : Rat
deriving DecidableEq, Repr

/-- Python `SimulationPosition.__init__`. -/
def initPosition (symbol : String) : SimulationPosition :=
  { symbol := symbol, size := 0, avg_price := 0, mark_price := 0
    unrealized_pnl := 0, realized_pnl := 0, leverage := 1 }

/-- Python `SimulationPosition.update_mark_price`: set the mark price and,
only when `size != 0`, recompute the unrealized PnL. -/
def SimulationPosition.update_mark_price (p : SimulationPosition) (price : Rat) :
    SimulationPosition :=
  let p1 := { p with mark_price := price }
  if p1.size ≠ 0 then
    { p1 with unrealized_pnl := p1.size * (price - p1.avg_price) }
  else p1

/-- Python `SimulationPosition.add_trade`: four-case position accounting
(open / increase / reduce / close-or-flip). -/
def SimulationPosition.add_trade (p : SimulationPosition) (qty price fee : Rat) :
    SimulationPosition :=
  if p.size = 0 then
    { p with size := qty, avg_price := price }
  else if (p.size > 0 ∧ qty > 0) ∨ (p.size < 0 ∧ qty < 0) then
    let total_value := p.size * p.avg_price + qty * price
    let newSize := p.size + qty
    { p with size := newSize, avg_price := total_value / newSize }
  else
    if |qty| ≥ |p.size| then
      let realized := p.size * (price - p.avg_price) - fee
      let newSize := if |qty| > |p.size| then qty + p.size else 0
      let p1 := { p with realized_pnl := p.realized_pnl + realized, size := newSize }
      if p1.size ≠ 0 then { p1 with avg_price := price } else p1
    else
      let realized := (-qty) * (price - p.avg_price) - fee
      { p with realized_pnl := p.realized_pnl + realized, size := p.size + qty }

/-- One execution record, the dict appended to `execution_history` by
`SimulationEngine._execute_order` (the constant `exec_type = "Trade"` field is
omitted). -/
structure ExecRecord where
  order_id : Nat
  symbol : String
  side : Side
  price : Rat
  qty : Rat
  exec_value : Rat
  exec_fee : Rat
  fee_rate : Rat
  exec_time : Int
  order_type : OrderType
  order_price : Rat
deriving DecidableEq, Repr

/-- One symbol's loaded data: the pair of entries `data_frames[symbol]`
(`none` when no data loaded) and `current_indices[symbol]`, both dicts keyed
by exactly the engine's symbols in order; the aligned list mirrors the Python
loop `for symbol in self.symbols`. -/
structure SymbolStream where
  symbol : String
  rows : Option (List Snapshot)
  idx : Nat
deriving DecidableEq, Repr

/-- Mutable state of Python class `SimulationEngine`. `streams` carries
`data_frames` and `current_indices`; `lat_tape`/`fill_tape` are the
pre-sampled randomness oracles with their consumption counters;
`next_order_id` generates the opaque order ids. -/
structure SimulationEngine where
  symbols : List String
  initial_balance : Rat
  wallet_balance : Rat
  maker_fee : Rat
  taker_fee : Rat
  market_order_slippage_bps : Rat
  current_time : Int
  current_data : List (String × Snapshot)
  positions : List (String × SimulationPosition)
  orders : List SimulationOrder
  pending_orders : List SimulationOrder
  order_history : List SimulationOrder
  execution_history : List ExecRecord
  streams : List SymbolStream
  next_order_id : Nat
  lat_tape : Nat → Nat
  lat_ctr : Nat
  fill_tape : Nat → Bool
  fill_ctr : Nat

/-- Update the value stored under key `k` of a symbol-keyed dict (in-place
mutation of `self.positions[symbol]` in Python; keys are unique). -/
def updateA {α : Type} (l : List (String × α)) (k : String) (f : α → α) :
    List (String × α) :=
  l.map (fun p => if p.1 = k then (p.1, f p.2) else p)

/-- Python `SimulationEngine._apply_slippage`. -/
def apply_slippage (slippage_bps : Rat) (price : Rat) (side : Side) : Rat :=
  let slippage_factor := slippage_bps / 10000
  match side with
  | .Buy => price * (1 + slippage_factor)
  | .Sell => price * (1 - slippage_factor)

/-- Draw one pre-sampled fill decision, Python
`SimulationEngine._should_fill_limit_order`. -/
def draw_fill (s : SimulationEngine) : Bool × SimulationEngine :=
  (s.fill_tape s.fill_ctr, { s with fill_ctr := s.fill_ctr + 1 })

/-- Python `SimulationEngine._execute_order`: fee, wallet, position update,
order fill fields, and the appended execution and order-history records. -/
def execute_order (s : SimulationEngine) (order : SimulationOrder)
    (qty price : Rat) : SimulationEngine :=
  let fee_rate := if order.order_type = OrderType.Limit then s.maker_fee else s.taker_fee
  let fee := |qty| * price * fee_rate
  let signed_qty := if order.side = Side.Buy then qty else -qty
  let filled :=
    { order with
      status := OrderStatus.Filled
      filled_qty := qty
      avg_price := price }
  let execution : ExecRecord :=
    { order_id := order.order_id, symbol := order.symbol, side := order.side
      price := price, qty := qty, exec_value := |qty| * price, exec_fee := fee
      fee_rate := fee_rate, exec_time := s.current_time
      order_type := order.order_type, order_price := order.price }
  let newPositions :=
    updateA s.positions order.symbol (fun p => p.add_trade signed_qty price fee)
  { s with
    wallet_balance := s.wallet_balance - fee
    positions := newPositions
    execution_history := s.execution_history ++ [execution]
    order_history := s.order_history ++ [filled] }

/-- One iteration of the loop body of Python
`SimulationEngine._process_orders`: try to match one active order against the
current snapshot of its symbol; returns the updated state and whether the
order executed. -/
def processOneOrder (s : SimulationEngine) (order : SimulationOrder) :
    SimulationEngine × Bool :=
  match List.lookup order.symbol s.current_data with
  | none => (s, false)
  | some data =>
    match order.order_type with
    | .Market =>
      let base_price := match order.side with
        | .Buy => data.ask0_price
        | .Sell => data.bid0_price
      let fill_price := apply_slippage s.market_order_slippage_bps base_price order.side
      (execute_order s order order.qty fill_price, true)
    | .Limit =>
      match order.side with
      | .Buy =>
        if data.ask0_price ≤ order.price then
          let d := draw_fill s
          if d.1 then
            (execute_order d.2 order order.qty (min order.price data.ask0_price), true)
          else (d.2, false)
        else (s, false)
      | .Sell =>
        if data.bid0_price ≥ order.price then
          let d := draw_fill s
          if d.1 then
            (execute_order d.2 order order.qty (max order.price data.bid0_price), true)
          else (d.2, false)
        else (s, false)

/-- The loop body of `_process_orders`, threading the engine state and the
accumulated `executed_orders` id list. -/
def processFold (acc : SimulationEngine × List Nat) (order : SimulationOrder) :
    SimulationEngine × List Nat :=
  let pr := processOneOrder acc.1 order
  (pr.1, if pr.2 then acc.2 ++ [order.order_id] else acc.2)

/-- Python `SimulationEngine._process_orders`: iterate the active orders in
insertion order, then delete the executed ids. -/
def process_orders (s : SimulationEngine) : SimulationEngine :=
  let res := s.orders.foldl processFold (s, ([] : List Nat))
  { res.1 with orders := res.1.orders.filter (fun o => !(res.2.contains o.order_id)) }

/-- Python `SimulationEngine._process_pending_orders`: promote every pending
order whose `execution_time` has elapsed into the active map (in list order),
removing it from the pending list. -/
def process_pending_orders (s : SimulationEngine) : SimulationEngine :=
  { s with
    orders := s.orders ++
      s.pending_orders.filter (fun o => decide (o.execution_time ≤ s.current_time))
    pending_orders :=
      s.pending_orders.filter (fun o => !decide (o.execution_time ≤ s.current_time)) }

/-- The mark-price refresh loop of `_update_state`: for each symbol of the
new data that has a position, update its mark price to the new mid. -/
def markFold (data : List (String × Snapshot)) (s : SimulationEngine) :
    SimulationEngine :=
  data.foldl
    (fun st sd =>
      if (List.lookup sd.1 st.positions).isSome then
        let mid := (sd.2.bid0_price + sd.2.ask0_price) / 2
        let newPositions := updateA st.positions sd.1 (fun p => p.update_mark_price mid)
        { st with positions := newPositions }
      else st) s

/-- Python `SimulationEngine._update_state`: set `current_time` and
`current_data`, refresh each cached symbol's mark price to the new mid, then
promote pending orders and match active orders. -/
def update_state (s : SimulationEngine) (timestamp : Int)
    (data : List (String × Snapshot)) : SimulationEngine :=
  let s1 := { s with current_time := timestamp, current_data := data }
  process_orders (process_pending_orders (markFold data s1))

/-- Python `SimulationEngine._get_next_data_point` for one symbol: the row at
the current index, if any, and the stream with its index advanced. -/
def stepOne (st : SymbolStream) : SymbolStream × Option (String × Snapshot) :=
  match st.rows with
  | none => (st, none)
  | some rows =>
    match rows[st.idx]? with
    | none => (st, none)
    | some row => ({ st with idx := st.idx + 1 }, some (st.symbol, row))

/-- All streams after the per-symbol `_get_next_data_point` calls of `next`. -/
def stepAll (l : List SymbolStream) : List SymbolStream :=
  l.map (fun st => (stepOne st).1)

/-- The `next_data` dict collected by `next`: one row per non-exhausted
symbol, in symbol order. -/
def collectData (l : List SymbolStream) : List (String × Snapshot) :=
  l.filterMap (fun st => (stepOne st).2)

/-- The running minimum-timestamp computation of the collection loop in
`next` (`min_time`). -/
def minTs : List (String × Snapshot) → Option Int
  | [] => none
  | sd :: rest =>
    match minTs rest with
    | none => some sd.2.ts
    | some m => some (if sd.2.ts < m then sd.2.ts else m)

/-- Python `SimulationEngine.next` with `target_time=None`: consume the next
row of every non-exhausted symbol, and update state at the minimum collected
timestamp; `false` when nothing was collected. -/
def nextStep (s : SimulationEngine) : Bool × SimulationEngine :=
  match minTs (collectData s.streams) with
  | none => (false, s)
  | some m =>
    (true, update_state { s with streams := stepAll s.streams } m (collectData s.streams))

/-- The first index of the slice whose `ts` is at or after `target`; this is
the `mask.any()` / `mask.arg_max()` pair of Python
`SimulationEngine._jump_to_time`. -/
def findFirstGE (target : Int) : List Snapshot → Option Nat
  | [] => none
  | r :: rest =>
    if target ≤ r.ts then some 0 else (findFirstGE target rest).map (· + 1)

/-- One symbol's part of `_jump_to_time`: advance the index to the first
remaining row at or after `target` when one exists (else leave it unchanged),
and report whether this symbol advanced (`advanced_any` contribution). -/
def jumpOne (target : Int) (st : SymbolStream) : SymbolStream × Bool :=
  match st.rows with
  | none => (st, false)
  | some rows =>
    if rows.length ≤ st.idx then (st, false)
    else
      match findFirstGE target (rows.drop st.idx) with
      | some j => ({ st with idx := st.idx + j }, true)
      | none => (st, false)

/-- All streams after the per-symbol jump loop of `_jump_to_time`. -/
def jumpAll (target : Int) (l : List SymbolStream) : List SymbolStream :=
  l.map (fun st => (jumpOne target st).1)

/-- The `advanced_any` flag of `_jump_to_time`. -/
def jumpAny (target : Int) (l : List SymbolStream) : Bool :=
  l.any (fun st => (jumpOne target st).2)

/-- Python `SimulationEngine._jump_to_time`. -/
def jump_to_time (s : SimulationEngine) (target : Int) : Bool × SimulationEngine :=
  if jumpAny target s.streams then nextStep { s with streams := jumpAll target s.streams }
  else (false, s)

/-- Python `SimulationEngine.next`. -/
def SimulationEngine.next (s : SimulationEngine) (target : Option Int) :
    Bool × SimulationEngine :=
  match target with
  | some t => jump_to_time s t
  | none => nextStep s

/-- Python `int()` conversion: truncation toward zero. -/
def pyTrunc (q : Rat) : Int :=
  q.num.tdiv q.den

/-- Python `SimulationEngine.wait_seconds`: convert to nanoseconds and jump
forward. -/
def wait_seconds (s : SimulationEngine) (seconds : Rat) : Bool × SimulationEngine :=
  let wait_ns := pyTrunc (seconds * 1000000000)
  SimulationEngine.next s (some (s.current_time + wait_ns))

/-- Python `SimulationEngine.wait`: same jump as `wait_seconds` with the
returned flag discarded. -/
def wait (s : SimulationEngine) (timeout : Rat) : SimulationEngine :=
  (wait_seconds s timeout).2

/-- Python `SimulationEngine.wait_minutes`. -/
def wait_minutes (s : SimulationEngine) (minutes : Rat) : Bool × SimulationEngine :=
  wait_seconds s (minutes * 60)

/-- Python `SimulationEngine.place_order`: validate the symbol, draw a
latency, build the order and append it to the pending queue. Returns the new
state and the order id on success, the `ValueError` on an unknown symbol. -/
def place_order (s : SimulationEngine) (symbol : String) (qty : Rat)
    (price : Option Rat) (type : OrderType) : Except String (SimulationEngine × Nat) :=
  if symbol ∈ s.symbols then
    let order_id := s.next_order_id
    let side := if qty > 0 then Side.Buy else Side.Sell
    let price0 := price.getD 0
    let order_latency : Int := s.lat_tape s.lat_ctr
    let submission_time := s.current_time
    let execution_time := s.current_time + order_latency
    let order : SimulationOrder :=
      { order_id := order_id, symbol := symbol, side := side, qty := |qty|
        price := price0, order_type := type, timestamp := submission_time
        submission_time := submission_time, execution_time := execution_time
        status := OrderStatus.New, filled_qty := 0, avg_price := 0 }
    let s1 :=
      { s with
        lat_ctr := s.lat_ctr + 1
        next_order_id := order_id + 1
        pending_orders := s.pending_orders ++ [order] }
    Except.ok (s1, order_id)
  else Except.error "Symbol not supported in simulation"

/-- Python `SimulationEngine.cancel_order`: remove the order from the active
map when present (ret code 0), else do nothing (ret code 1). The pending
queue is not consulted. -/
def cancel_order (s : SimulationEngine) (order_id : Nat) : SimulationEngine × Nat :=
  if s.orders.any (fun o => o.order_id == order_id) then
    ({ s with orders := s.orders.filter (fun o => o.order_id != order_id) }, 0)
  else (s, 1)

/-- Python `SimulationEngine.cancel_all_orders`. -/
def cancel_all_orders (s : SimulationEngine) (symbol : String) :
    SimulationEngine × Nat :=
  ({ s with orders := s.orders.filter (fun o => o.symbol != symbol) }, 0)

/-- Python `SimulationEngine.set_leverage`. -/
def set_leverage (s : SimulationEngine) (symbol : String) (leverage : Rat) :
    SimulationEngine :=
  let newPositions := updateA s.positions symbol (fun p => { p with leverage := leverage })
  { s with positions := newPositions }

/-- Python `SimulationEngine.close_positions`: place a market order of the
opposite size for each nonzero subscribed position. The `place_order` error
branch is unreachable for engine-built states (position keys are subscribed
symbols) and leaves the state unchanged. -/
def close_positions (s : SimulationEngine) (symbols : List String) :
    SimulationEngine :=
  symbols.foldl
    (fun st sym =>
      match List.lookup sym st.positions with
      | some pos =>
        if pos.size ≠ 0 then
          match place_order st sym (-pos.size) none OrderType.Market with
          | Except.ok r => r.1
          | Except.error _ => st
        else st
      | none => st) s

/-- The mutating operations of the exchange facade, for stating state
invariants over arbitrary call sequences. -/
inductive Op where
  | next : Op
  | nextTo (t : Int) : Op
  | wait (q : Rat) : Op
  | waitSeconds (q : Rat) : Op
  | waitMinutes (q : Rat) : Op
  | placeOrder (symbol : String) (qty : Rat) (price : Option Rat) (ty : OrderType) : Op
  | cancelOrder (id : Nat) : Op
  | cancelAllOrders (symbol : String) : Op
  | closePositions (symbols : List String) : Op
  | setLeverage (symbol : String) (lev : Rat) : Op

/-- Run one facade operation, discarding its return value. A failing
`place_order` raises before mutating anything, so the state is unchanged. -/
def runOp (s : SimulationEngine) : Op → SimulationEngine
  | .next => (nextStep s).2
  | .nextTo t => (SimulationEngine.next s (some t)).2
  | .wait q => wait s q
  | .waitSeconds q => (wait_seconds s q).2
  | .waitMinutes q => (wait_minutes s q).2
  | .placeOrder sym qty pr ty =>
    match place_order s sym qty pr ty with
    | Except.ok r => r.1
    | Except.error _ => s
  | .cancelOrder id => (cancel_order s id).1
  | .cancelAllOrders sym => (cancel_all_orders s sym).1
  | .closePositions syms => close_positions s syms
  | .setLeverage sym lev => set_leverage s sym lev

/-- The per-symbol position record built by Python
`SimulationEngine.get_positions`. -/
structure PositionDict where
  size : Rat
  aep : Rat
  mark_price : Rat
  value : Rat
  leverage : Rat
  position_balance : Rat
  unrealized_pnl : Rat
  realized_pnl : Rat
deriving DecidableEq, Repr

/-- The record `get_positions` builds for one position. -/
def posDict (p : SimulationPosition) : PositionDict :=
  { size := p.size, aep := p.avg_price, mark_price := p.mark_price
    value := |p.size| * p.mark_price, leverage := p.leverage
    position_balance := |p.size| * p.avg_price
    unrealized_pnl := p.unrealized_pnl, realized_pnl := p.realized_pnl }

/-- Return shape of `get_positions`: either the bare single-symbol record or
the symbol-keyed map. -/
inductive PositionsResult where
  | single : PositionDict → PositionsResult
  | multi : List (String × PositionDict) → PositionsResult
deriving DecidableEq, Repr

/-- Python `SimulationEngine.get_positions`: build the map, skipping symbols
with no position; for a one-element argument list index the map at that
symbol (a missing key raises `KeyError`). -/
def get_positions (s : SimulationEngine) (symbols : List String) :
    Except String PositionsResult :=
  let positions := symbols.filterMap
    (fun sym => (List.lookup sym s.positions).map (fun p => (sym, posDict p)))
  match symbols with
  | [sym] =>
    match List.lookup sym positions with
    | some d => Except.ok (PositionsResult.single d)
    | none => Except.error "KeyError"
  | _ => Except.ok (PositionsResult.multi positions)

/-!
Reference semantics of the history and market-data queries. Python's
`execution_history`, `order_history`, `positions` and `current_data` hold
mutable objects; `get_trade_history` appends the internal execution dicts
themselves to its result, while `get_trades`, `get_filled_orders`,
`get_pnl`, `get_positions` and `get_orderbook` build new dicts (or arrays)
from the internals' fields. To make aliasing and freshness observable in a
pure embedding, every record lives in an explicit heap (the address of a
record is its index), the engine's internal lists hold addresses,
`get_trade_history` returns internal addresses, and each copying query
allocates its freshly built records at new addresses.
-/

/-- One returned trade of Python `SimulationEngine.get_trades`. -/
structure TradeDict where
  ts : Int
  price : Rat
  qty : Rat
  side : Int
deriving DecidableEq, Repr

/-- One returned record of Python `SimulationEngine.get_filled_orders`. -/
structure FilledOrderDict where
  order_id : Nat
  symbol : String
  side : Side
  order_type : OrderType
  price : Rat
  qty : Rat
  avg_price : Rat
  cum_exec_qty : Rat
  cum_exec_value : Rat
  order_status : OrderStatus
  created_time : Int
  updated_time : Int
deriving DecidableEq, Repr

/-- One returned record of Python `SimulationEngine.get_pnl`. -/
structure PnlDict where
  symbol : String
  closed_pnl : Rat
  unrealized_pnl : Rat
  created_time : Int
  updated_time : Int
deriving DecidableEq, Repr

/-- The dict returned by Python `SimulationEngine.get_orderbook`: per-side
`[price, amount]` levels plus `ts` and `cts`. -/
structure OrderbookDict where
  b : List (Rat × Rat)
  a : List (Rat × Rat)
  ts : Int
  cts : Int
deriving DecidableEq, Repr

/-- A heap cell: one mutable Python object (an internal record of the
engine, or a dict built by a query). -/
inductive HeapObj where
  | exec : ExecRecord → HeapObj
  | order : SimulationOrder → HeapObj
  | position : SimulationPosition → HeapObj
  | snapshotObj : Snapshot → HeapObj
  | tradeDict : TradeDict → HeapObj
  | filledOrderDict : FilledOrderDict → HeapObj
  | pnlDict : PnlDict → HeapObj
  | positionDict : PositionDict → HeapObj
  | orderbookDict : OrderbookDict → HeapObj
deriving DecidableEq, Repr

/-- The engine's query-relevant state with explicit reference identity:
`heap` is the object heap (address = index); the other fields are the
engine's internal lists of references. -/
structure QueryHeap where
  heap : List HeapObj
  execution_history : List Nat
  order_history : List Nat
  positions : List (String × Nat)
  current_data : List (String × Nat)
deriving DecidableEq, Repr

/-- Dereference an execution record. -/
def readExec (es : QueryHeap) (a : Nat) : Option ExecRecord :=
  match es.heap.get? a with
  | some (HeapObj.exec r) => some r
  | _ => none

/-- Dereference an order object. -/
def readOrder (es : QueryHeap) (a : Nat) : Option SimulationOrder :=
  match es.heap.get? a with
  | some (HeapObj.order o) => some o
  | _ => none

/-- Dereference a position object. -/
def readPosition (es : QueryHeap) (a : Nat) : Option SimulationPosition :=
  match es.heap.get? a with
  | some (HeapObj.position p) => some p
  | _ => none

/-- Dereference a cached snapshot row. -/
def readSnapshot (es : QueryHeap) (a : Nat) : Option Snapshot :=
  match es.heap.get? a with
  | some (HeapObj.snapshotObj r) => some r
  | _ => none

/-- The engine's internal execution history, dereferenced. -/
def readHistory (es : QueryHeap) : List (Option ExecRecord) :=
  es.execution_history.map (readExec es)

/-- The engine's internal order history, dereferenced. -/
def readOrders (es : QueryHeap) : List (Option SimulationOrder) :=
  es.order_history.map (readOrder es)

/-- The engine's internal positions, dereferenced. -/
def readPositions (es : QueryHeap) : List (String × Option SimulationPosition) :=
  es.positions.map (fun p => (p.1, readPosition es p.2))

/-- The engine's market-state cache, dereferenced. -/
def readMarket (es : QueryHeap) : List (String × Option Snapshot) :=
  es.current_data.map (fun p => (p.1, readSnapshot es p.2))

/-- In-place mutation of one object through a reference (what a caller does
to a dict a query handed out). -/
def mutateRecord (es : QueryHeap) (a : Nat) (obj : HeapObj) : QueryHeap :=
  { es with heap := es.heap.set a obj }

/-- Allocate freshly built records on the heap and return their (new)
addresses — Python building new dicts in a query. -/
def alloc (es : QueryHeap) (objs : List HeapObj) : QueryHeap × List Nat :=
  ({ es with heap := es.heap ++ objs },
   (List.range objs.length).map (fun k => es.heap.length + k))

/-- Well-formedness: every internal reference points into the heap. -/
def WF (es : QueryHeap) : Prop :=
  (∀ a ∈ es.execution_history, a < es.heap.length) ∧
  (∀ a ∈ es.order_history, a < es.heap.length) ∧
  (∀ p ∈ es.positions, p.2 < es.heap.length) ∧
  (∀ p ∈ es.current_data, p.2 < es.heap.length)

/-- Two heap states agree on the engine's internals: same reference lists
and the same heap content at every address of the original heap. -/
def heapAgree (es2 es : QueryHeap) : Prop :=
  es2.execution_history = es.execution_history ∧
  es2.order_history = es.order_history ∧
  es2.positions = es.positions ∧
  es2.current_data = es.current_data ∧
  ∀ a, a < es.heap.length → es2.heap.get? a = es.heap.get? a

/-- Python `SimulationEngine.get_trade_history` with default
`start_time`/`end_time` and a positive `limit` (the `[-limit:]` tail): the
result list holds the internal record objects themselves, so it is the tail
of `execution_history` (capped at `limit`), filtered by symbol — as
references. -/
def get_trade_history (es : QueryHeap) (symbol : Option String) (limit : Nat) :
    List Nat :=
  (es.execution_history.drop (es.execution_history.length - limit)).filter
    (fun a =>
      match symbol with
      | none => true
      | some sym =>
        match readExec es a with
        | some r => r.symbol == sym
        | none => false)

/-- The records Python `SimulationEngine.get_trades` builds (positive
`limit`): new dicts from the last `limit` executions of the requested
symbol. -/
def get_trades_records (es : QueryHeap) (symbol : String) (limit : Nat) :
    List HeapObj :=
  (es.execution_history.drop (es.execution_history.length - limit)).filterMap
    (fun a =>
      (readExec es a).bind
        (fun r =>
          if r.symbol == symbol then
            some (HeapObj.tradeDict
              { ts := r.exec_time, price := r.price, qty := r.qty
                side := if r.side = Side.Buy then 1 else -1 })
          else none))

/-- Python `SimulationEngine.get_trades`: allocate the freshly built trade
dicts and return their references. -/
def get_trades (es : QueryHeap) (symbol : String) (limit : Nat) :
    QueryHeap × List Nat :=
  alloc es (get_trades_records es symbol limit)

/-- The records Python `SimulationEngine.get_filled_orders` builds (positive
`limit`, default `order_filter`): new dicts from the last `limit` entries of
`order_history`, keeping only Filled orders of the requested symbol. -/
def get_filled_orders_records (es : QueryHeap) (symbol : Option String)
    (limit : Nat) : List HeapObj :=
  (es.order_history.drop (es.order_history.length - limit)).filterMap
    (fun a =>
      (readOrder es a).bind
        (fun o =>
          if (match symbol with
              | none => true
              | some sym => o.symbol == sym) &&
             decide (o.status = OrderStatus.Filled) then
            some (HeapObj.filledOrderDict
              { order_id := o.order_id, symbol := o.symbol, side := o.side
                order_type := o.order_type, price := o.price, qty := o.qty
                avg_price := o.avg_price, cum_exec_qty := o.filled_qty
                cum_exec_value := o.filled_qty * o.avg_price
                order_status := o.status, created_time := o.timestamp
                updated_time := o.timestamp })
          else none))

/-- Python `SimulationEngine.get_filled_orders`: allocate the freshly built
dicts and return their references. -/
def get_filled_orders (es : QueryHeap) (symbol : Option String) (limit : Nat) :
    QueryHeap × List Nat :=
  alloc es (get_filled_orders_records es symbol limit)

/-- The per-position records Python `SimulationEngine.get_pnl` builds with
default `start_time`/`end_time` (`current_time` is the engine clock passed
in): one new dict per matching position. -/
def get_pnl_pre (es : QueryHeap) (current_time : Int)
    (symbol : Option String) : List HeapObj :=
  es.positions.filterMap
    (fun p =>
      (readPosition es p.2).bind
        (fun pos =>
          if (match symbol with
              | none => true
              | some sym => p.1 == sym) then
            some (HeapObj.pnlDict
              { symbol := p.1, closed_pnl := pos.realized_pnl
                unrealized_pnl := pos.unrealized_pnl
                created_time := current_time, updated_time := current_time })
          else none))

/-- The record list Python `SimulationEngine.get_pnl` returns: the
`[-limit:]` tail of the per-position records. -/
def get_pnl_records (es : QueryHeap) (current_time : Int)
    (symbol : Option String) (limit : Nat) : List HeapObj :=
  (get_pnl_pre es current_time symbol).drop
    ((get_pnl_pre es current_time symbol).length - limit)

/-- Python `SimulationEngine.get_pnl`: allocate the freshly built dicts and
return their references. -/
def get_pnl (es : QueryHeap) (current_time : Int) (symbol : Option String)
    (limit : Nat) : QueryHeap × List Nat :=
  alloc es (get_pnl_records es current_time symbol limit)

/-- The per-symbol records Python `SimulationEngine.get_positions` builds
(the same query as `get_positions` above, here in the reference model): one
new dict per requested subscribed symbol. -/
def get_positions_records (es : QueryHeap) (symbols : List String) :
    List HeapObj :=
  symbols.filterMap
    (fun sym =>
      (List.lookup sym es.positions).bind
        (fun a => (readPosition es a).map
          (fun pos => HeapObj.positionDict (posDict pos))))

/-- Reference-model `get_positions`: allocate the freshly built per-symbol
records and return their references. -/
def get_positions_refs (es : QueryHeap) (symbols : List String) :
    QueryHeap × List Nat :=
  alloc es (get_positions_records es symbols)

/-- The dict Python `SimulationEngine.get_orderbook` builds from a cached
row: fresh per-side `[price, amount]` lists over the book levels this
embedding carries (level 0), `ts`, and `cts = ts_local or ts`. -/
def orderbookDictOf (row : Snapshot) (depth : Nat) : OrderbookDict :=
  { b := if 1 ≤ min depth 25 then [(row.bid0_price, row.bid0_amount)] else []
    a := if 1 ≤ min depth 25 then [(row.ask0_price, row.ask0_amount)] else []
    ts := row.ts
    cts := row.ts_local.getD row.ts }

/-- The (zero- or one-element) record list `get_orderbook` builds for a
symbol. -/
def get_orderbook_records (es : QueryHeap) (symbol : String) (depth : Nat) :
    List HeapObj :=
  match List.lookup symbol es.current_data with
  | none => []
  | some a =>
    match readSnapshot es a with
    | none => []
    | some row => [HeapObj.orderbookDict (orderbookDictOf row depth)]

/-- Python `SimulationEngine.get_orderbook`: `ValueError` when the symbol
has no cached snapshot, else allocate the freshly built dict and return its
reference. -/
def get_orderbook (es : QueryHeap) (symbol : String) (depth : Nat) :
    Except String (QueryHeap × List Nat) :=
  match List.lookup symbol es.current_data with
  | none => Except.error "No data available for symbol"
  | some a =>
    match readSnapshot es a with
    | none => Except.error "No data available for symbol"
    | some row => Except.ok (alloc es [HeapObj.orderbookDict (orderbookDictOf row depth)])

/-- The copy guarantee of one allocating query: the returned references are
fresh (beyond the original heap), the query leaves every internal view
unchanged, and mutating any returned record still leaves every internal
view — and the records an identical repeated query would build — unchanged. -/
def FreshQuery (es : QueryHeap) (result : QueryHeap × List Nat)
    (rebuild : QueryHeap → List HeapObj) : Prop :=
  (∀ a ∈ result.2, es.heap.length ≤ a) ∧
  readHistory result.1 = readHistory es ∧
  readOrders result.1 = readOrders es ∧
  readPositions result.1 = readPositions es ∧
  readMarket result.1 = readMarket es ∧
  ∀ a ∈ result.2, ∀ obj,
    readHistory (mutateRecord result.1 a obj) = readHistory es ∧
    readOrders (mutateRecord result.1 a obj) = readOrders es ∧
    readPositions (mutateRecord result.1 a obj) = readPositions es ∧
    readMarket (mutateRecord result.1 a obj) = readMarket es ∧
    rebuild (mutateRecord result.1 a obj) = rebuild es

/-- Total fees booked in the execution history. -/
def feeSum (s : SimulationEngine) : Rat :=
  (s.execution_history.map (fun r => r.exec_fee)).sum

/-- The wallet-bookkeeping invariant: the wallet balance equals the initial
balance minus the sum of all booked fees. -/
def walletInv (s : SimulationEngine) : Prop :=
  s.wallet_balance = s.initial_balance - feeSum s

/-- A snapshot list sorted by timestamp (what `_load_all_data`'s
`df.sort('ts')` guarantees). -/
def RowsSorted (rows : List Snapshot) : Prop :=
  ∀ i j : Fin rows.length, (i : Nat) ≤ (j : Nat) → (rows.get i).ts ≤ (rows.get j).ts

/-- Every loaded stream is sorted by timestamp. -/
def sortedStreams (s : SimulationEngine) : Prop :=
  ∀ st ∈ s.streams, ∀ rows, st.rows = some rows → RowsSorted rows

/-- The current time is at or before every unconsumed snapshot. -/
def timeLE (s : SimulationEngine) : Prop :=
  ∀ st ∈ s.streams, ∀ rows, st.rows = some rows →
    ∀ i : Fin rows.length, st.idx ≤ (i : Nat) → s.current_time ≤ (rows.get i).ts

/-- The inductive invariant behind monotone time: sorted streams and a
current time not beyond any unconsumed snapshot. -/
def TimeInv (s : SimulationEngine) : Prop :=
  sortedStreams s ∧ timeLE s

/-!
Concrete demonstration states used by the closed-statement theorems below.
-/

/-- An engine with no streams (trivially satisfying `TimeInv`). -/
def c7State : SimulationEngine :=
  { symbols := [], initial_balance := 0, wallet_balance := 0
    maker_fee := 0, taker_fee := 0, market_order_slippage_bps := 0
    current_time := 0, current_data := []
    positions := []
    orders := [], pending_orders := [], order_history := [], execution_history := []
    streams := [], next_order_id := 0
    lat_tape := fun _ => 0, lat_ctr := 0
    fill_tape := fun _ => true, fill_ctr := 0 }

/-- A freshly constructed engine (no executions yet), satisfying the wallet
invariant. -/
def c6State : SimulationEngine :=
  { symbols := ["BTC"], initial_balance := 10000, wallet_balance := 10000
    maker_fee := 1 / 10000, taker_fee := 6 / 10000, market_order_slippage_bps := 1
    current_time := 0, current_data := []
    positions := [("BTC", initPosition "BTC")]
    orders := [], pending_orders := [], order_history := [], execution_history := []
    streams := [{ symbol := "BTC", rows := some [], idx := 0 }]
    next_order_id := 0
    lat_tape := fun _ => 0, lat_ctr := 0
    fill_tape := fun _ => true, fill_ctr := 0 }

/-- A position of size 1 opened at 100 (mark price still 100). -/
def c2OpenPosition : SimulationPosition :=
  { symbol := "BTC", size := 1, avg_price := 100, mark_price := 100
    unrealized_pnl := 0, realized_pnl := 0, leverage := 1 }

/-- A pending market sell order for one unit of BTC, already past its
latency (`execution_time = 0`). -/
def c2SellOrder : SimulationOrder :=
  { order_id := 0, symbol := "BTC", side := Side.Sell, qty := 1, price := 0
    order_type := OrderType.Market, timestamp := 0, submission_time := 0
    execution_time := 0, status := OrderStatus.New, filled_qty := 0, avg_price := 0 }

/-- Engine about to advance onto a snapshot with bid 109 / ask 111 (mid 110)
while holding the open long position and the pending closing sell (all fees
and slippage zero to keep the arithmetic visible). -/
def c2State : SimulationEngine :=
  { symbols := ["BTC"], initial_balance := 10000, wallet_balance := 10000
    maker_fee := 0, taker_fee := 0, market_order_slippage_bps := 0
    current_time := 0, current_data := []
    positions := [("BTC", c2OpenPosition)]
    orders := [], pending_orders := [c2SellOrder]
    order_history := [], execution_history := []
    streams := [{ symbol := "BTC", rows := some [{ ts := 10, bid0_price := 109, ask0_price := 111 }], idx := 0 }]
    next_order_id := 1
    lat_tape := fun _ => 0, lat_ctr := 0
    fill_tape := fun _ => true, fill_ctr := 0 }

/-- A flat (size 0) position. -/
def c5Pos0 : SimulationPosition := initPosition "X"

/-- A BTC snapshot at t = 1. -/
def c1SnapB : Snapshot := { ts := 1, bid0_price := 10, ask0_price := 11 }

/-- An ETH snapshot at t = 2 (disjoint from BTC's timestamp). -/
def c1SnapE : Snapshot := { ts := 2, bid0_price := 20, ask0_price := 21 }

/-- A two-symbol engine whose BTC and ETH streams hold one snapshot each at
disjoint timestamps 1 and 2. -/
def c1State : SimulationEngine :=
  { symbols := ["BTC", "ETH"], initial_balance := 10000, wallet_balance := 10000
    maker_fee := 0, taker_fee := 0, market_order_slippage_bps := 0
    current_time := 0, current_data := []
    positions := [("BTC", initPosition "BTC"), ("ETH", initPosition "ETH")]
    orders := [], pending_orders := [], order_history := [], execution_history := []
    streams := [{ symbol := "BTC", rows := some [c1SnapB], idx := 0 },
                { symbol := "ETH", rows := some [c1SnapE], idx := 0 }]
    next_order_id := 0
    lat_tape := fun _ => 0, lat_ctr := 0
    fill_tape := fun _ => true, fill_ctr := 0 }

/-- A consumed snapshot at t = 0. -/
def c8Snap0 : Snapshot := { ts := 0, bid0_price := 1, ask0_price := 2 }

/-- An unconsumed snapshot at t = 10, far before the jump target 100. -/
def c8Snap1 : Snapshot := { ts := 10, bid0_price := 1, ask0_price := 2 }

/-- A one-symbol engine that has consumed its first snapshot and still holds
one unconsumed snapshot at t = 10. -/
def c8State : SimulationEngine :=
  { symbols := ["BTC"], initial_balance := 10000, wallet_balance := 10000
    maker_fee := 0, taker_fee := 0, market_order_slippage_bps := 0
    current_time := 0, current_data := []
    positions := [("BTC", initPosition "BTC")]
    orders := [], pending_orders := [], order_history := [], execution_history := []
    streams := [{ symbol := "BTC", rows := some [c8Snap0, c8Snap1], idx := 1 }]
    next_order_id := 0
    lat_tape := fun _ => 0, lat_ctr := 0
    fill_tape := fun _ => true, fill_ctr := 0 }

/-- A consumed snapshot at t = 0 (jump demos). -/
def c4Snap0 : Snapshot := { ts := 0, bid0_price := 1, ask0_price := 2 }

/-- A snapshot at t = 10 s (past the 5 s wait target). -/
def c4SnapLate : Snapshot := { ts := 10000000000, bid0_price := 1, ask0_price := 2 }

/-- A snapshot at t = 1 s (before the 5 s wait target). -/
def c4SnapEarly : Snapshot := { ts := 1000000000, bid0_price := 1, ask0_price := 2 }

/-- The single stream of the one-symbol jump demo: first snapshot consumed,
next snapshot at t = 10 s. -/
def c4Stream : SymbolStream :=
  { symbol := "BTC", rows := some [c4Snap0, c4SnapLate], idx := 1 }

/-- A one-symbol engine about to `wait_seconds(5)` with its next snapshot at
t = 10 s. -/
def c4State : SimulationEngine :=
  { symbols := ["BTC"], initial_balance := 10000, wallet_balance := 10000
    maker_fee := 0, taker_fee := 0, market_order_slippage_bps := 0
    current_time := 0, current_data := []
    positions := [("BTC", initPosition "BTC")]
    orders := [], pending_orders := [], order_history := [], execution_history := []
    streams := [c4Stream]
    next_order_id := 0
    lat_tape := fun _ => 0, lat_ctr := 0
    fill_tape := fun _ => true, fill_ctr := 0 }

/-- A snapshot at t = 7 s (past the 5 s wait target). -/
def c4SnapMid : Snapshot := { ts := 7000000000, bid0_price := 1, ask0_price := 2 }

/-- A two-symbol engine about to `wait_seconds(5)` where EVERY symbol still
holding unconsumed data has a snapshot at or after the 5 s target: A's next
snapshot is at t = 10 s and B's at t = 7 s. -/
def c4MultiState : SimulationEngine :=
  { symbols := ["A", "B"], initial_balance := 10000, wallet_balance := 10000
    maker_fee := 0, taker_fee := 0, market_order_slippage_bps := 0
    current_time := 0, current_data := []
    positions := [("A", initPosition "A"), ("B", initPosition "B")]
    orders := [], pending_orders := [], order_history := [], execution_history := []
    streams := [{ symbol := "A", rows := some [c4Snap0, c4SnapLate], idx := 1 },
                { symbol := "B", rows := some [c4Snap0, c4SnapMid], idx := 1 }]
    next_order_id := 0
    lat_tape := fun _ => 0, lat_ctr := 0
    fill_tape := fun _ => true, fill_ctr := 0 }

/-- A two-symbol engine about to `wait_seconds(5)`: symbol A's next snapshot
is at t = 10 s (past the target) but symbol B's is at t = 1 s (before it). -/
def c4TwoState : SimulationEngine :=
  { symbols := ["A", "B"], initial_balance := 10000, wallet_balance := 10000
    maker_fee := 0, taker_fee := 0, market_order_slippage_bps := 0
    current_time := 0, current_data := []
    positions := [("A", initPosition "A"), ("B", initPosition "B")]
    orders := [], pending_orders := [], order_history := [], execution_history := []
    streams := [{ symbol := "A", rows := some [c4Snap0, c4SnapLate], idx := 1 },
                { symbol := "B", rows := some [c4Snap0, c4SnapEarly], idx := 1 }]
    next_order_id := 0
    lat_tape := fun _ => 0, lat_ctr := 0
    fill_tape := fun _ => true, fill_ctr := 0 }

/-- A snapshot at t = 10 whose best ask 99 is below the limit price 100. -/
def c3Snap : Snapshot := { ts := 10, bid0_price := 98, ask0_price := 99 }

/-- A one-symbol engine (zero latency, certain limit fills, zero fees) whose
next snapshot has ask 99. -/
def c3State : SimulationEngine :=
  { symbols := ["BTC"], initial_balance := 10000, wallet_balance := 10000
    maker_fee := 0, taker_fee := 0, market_order_slippage_bps := 0
    current_time := 0, current_data := []
    positions := [("BTC", initPosition "BTC")]
    orders := [], pending_orders := [], order_history := [], execution_history := []
    streams := [{ symbol := "BTC", rows := some [c3Snap], idx := 0 }]
    next_order_id := 0
    lat_tape := fun _ => 0, lat_ctr := 0
    fill_tape := fun _ => true, fill_ctr := 0 }

/-- The engine right after `place_order("BTC", +1, price=100, Limit)`: the
order (id 0) sits in the pending queue. -/
def c3s1 : SimulationEngine :=
  runOp c3State (Op.placeOrder "BTC" 1 (some 100) OrderType.Limit)

/-- One concrete execution record. -/
def c9Rec : ExecRecord :=
  { order_id := 0, symbol := "BTC", side := Side.Buy, price := 100, qty := 1
    exec_value := 100, exec_fee := 1, fee_rate := 1 / 100, exec_time := 7
    order_type := OrderType.Market, order_price := 100 }

/-- The record `c9Rec` after a caller overwrites its price in place. -/
def c9RecMut : ExecRecord := { c9Rec with price := 999 }

/-- One concrete filled order. -/
def c9Order : SimulationOrder :=
  { order_id := 0, symbol := "BTC", side := Side.Buy, qty := 1, price := 100
    order_type := OrderType.Market, timestamp := 7, submission_time := 7
    execution_time := 7, status := OrderStatus.Filled, filled_qty := 1
    avg_price := 100 }

/-- One concrete position object. -/
def c9Position : SimulationPosition :=
  { symbol := "BTC", size := 1, avg_price := 100, mark_price := 100
    unrealized_pnl := 0, realized_pnl := -1, leverage := 1 }

/-- One cached market snapshot. -/
def c9Snap2 : Snapshot := { ts := 7, bid0_price := 99, ask0_price := 101 }

/-- A heap-state holding one execution record, one filled order, one
position and one cached snapshot, each referenced by the matching internal
list. -/
def c9Heap : QueryHeap :=
  { heap := [HeapObj.exec c9Rec, HeapObj.order c9Order,
             HeapObj.position c9Position, HeapObj.snapshotObj c9Snap2]
    execution_history := [0]
    order_history := [1]
    positions := [("BTC", 2)]
    current_data := [("BTC", 3)] }

/-- A position subscribed under symbol "A". -/
def c10Pos : SimulationPosition :=
  { symbol := "A", size := 3, avg_price := 50, mark_price := 60
    unrealized_pnl := 30, realized_pnl := 5, leverage := 2 }

/-- An engine subscribed to symbol "A" only. -/
def c10State : SimulationEngine :=
  { symbols := ["A"], initial_balance := 0, wallet_balance := 0
    maker_fee := 0, taker_fee := 0, market_order_slippage_bps := 0
    current_time := 0, current_data := []
    positions := [("A", c10Pos)]
    orders := [], pending_orders := [], order_history := [], execution_history := []
    streams := [], next_order_id := 0
    lat_tape := fun _ => 0, lat_ctr := 0
    fill_tape := fun _ => true, fill_ctr := 0 }

/-- A long position of size 2 with average entry 100. -/
def c5PosLong : SimulationPosition :=
  { symbol := "X", size := 2, avg_price := 100, mark_price := 100
    unrealized_pnl := 0, realized_pnl := 0, leverage := 1 }

end Dspy

/-!
Theorems. Each claim of the specification is settled below; shared helper
lemmas precede the claim theorems.
-/

namespace Dspy

/-! Frame lemmas: the state fields each internal step leaves unchanged. -/

theorem execute_order_frame (s : SimulationEngine) (o : SimulationOrder) (q p : Rat) :
    (execute_order s o q p).current_time = s.current_time ∧
    (execute_order s o q p).current_data = s.current_data ∧
    (execute_order s o q p).streams = s.streams ∧
    (execute_order s o q p).orders = s.orders ∧
    (execute_order s o q p).pending_orders = s.pending_orders ∧
    (execute_order s o q p).initial_balance = s.initial_balance :=
  ⟨rfl, rfl, rfl, rfl, rfl, rfl⟩

theorem processOneOrder_frame (s : SimulationEngine) (o : SimulationOrder) :
    (processOneOrder s o).1.current_time = s.current_time ∧
    (processOneOrder s o).1.current_data = s.current_data ∧
    (processOneOrder s o).1.streams = s.streams ∧
    (processOneOrder s o).1.orders = s.orders ∧
    (processOneOrder s o).1.pending_orders = s.pending_orders ∧
    (processOneOrder s o).1.initial_balance = s.initial_balance := by
  simp only [processOneOrder]
  repeat' split
  all_goals exact ⟨rfl, rfl, rfl, rfl, rfl, rfl⟩

theorem processFold_foldl_frame :
    ∀ (l : List SimulationOrder) (acc : SimulationEngine × List Nat),
    (l.foldl processFold acc).1.current_time = acc.1.current_time ∧
    (l.foldl processFold acc).1.current_data = acc.1.current_data ∧
    (l.foldl processFold acc).1.streams = acc.1.streams ∧
    (l.foldl processFold acc).1.orders = acc.1.orders ∧
    (l.foldl processFold acc).1.pending_orders = acc.1.pending_orders ∧
    (l.foldl processFold acc).1.initial_balance = acc.1.initial_balance := by
  intro l
  induction l with
  | nil => intro acc; exact ⟨rfl, rfl, rfl, rfl, rfl, rfl⟩
  | cons o rest ih =>
    intro acc
    simp only [List.foldl_cons]
    have h1 := processOneOrder_frame acc.1 o
    have h2 := ih (processFold acc o)
    exact ⟨h2.1.trans h1.1, h2.2.1.trans h1.2.1, h2.2.2.1.trans h1.2.2.1,
      h2.2.2.2.1.trans h1.2.2.2.1, h2.2.2.2.2.1.trans h1.2.2.2.2.1,
      h2.2.2.2.2.2.trans h1.2.2.2.2.2⟩

theorem process_orders_frame (s : SimulationEngine) :
    (process_orders s).current_time = s.current_time ∧
    (process_orders s).current_data = s.current_data ∧
    (process_orders s).streams = s.streams ∧
    (process_orders s).pending_orders = s.pending_orders ∧
    (process_orders s).initial_balance = s.initial_balance := by
  have h := processFold_foldl_frame s.orders (s, ([] : List Nat))
  exact ⟨h.1, h.2.1, h.2.2.1, h.2.2.2.2.1, h.2.2.2.2.2⟩

theorem process_pending_orders_frame (s : SimulationEngine) :
    (process_pending_orders s).current_time = s.current_time ∧
    (process_pending_orders s).current_data = s.current_data ∧
    (process_pending_orders s).streams = s.streams ∧
    (process_pending_orders s).wallet_balance = s.wallet_balance ∧
    (process_pending_orders s).execution_history = s.execution_history ∧
    (process_pending_orders s).initial_balance = s.initial_balance :=
  ⟨rfl, rfl, rfl, rfl, rfl, rfl⟩

theorem markFold_frame :
    ∀ (data : List (String × Snapshot)) (s : SimulationEngine),
    (markFold data s).current_time = s.current_time ∧
    (markFold data s).current_data = s.current_data ∧
    (markFold data s).streams = s.streams ∧
    (markFold data s).orders = s.orders ∧
    (markFold data s).pending_orders = s.pending_orders ∧
    (markFold data s).wallet_balance = s.wallet_balance ∧
    (markFold data s).execution_history = s.execution_history ∧
    (markFold data s).initial_balance = s.initial_balance := by
  intro data
  induction data with
  | nil => intro s; exact ⟨rfl, rfl, rfl, rfl, rfl, rfl, rfl, rfl⟩
  | cons d rest ih =>
    intro s
    simp only [markFold, List.foldl_cons] at ih ⊢
    split <;> exact ih _

theorem update_state_fields (s : SimulationEngine) (t : Int)
    (data : List (String × Snapshot)) :
    (update_state s t data).current_time = t ∧
    (update_state s t data).current_data = data ∧
    (update_state s t data).streams = s.streams ∧
    (update_state s t data).initial_balance = s.initial_balance := by
  simp only [update_state]
  have hm := markFold_frame data { s with current_time := t, current_data := data }
  have hp := process_orders_frame
    (process_pending_orders (markFold data { s with current_time := t, current_data := data }))
  refine ⟨hp.1.trans hm.1, hp.2.1.trans hm.2.1, hp.2.2.1.trans hm.2.2.1,
    hp.2.2.2.2.trans hm.2.2.2.2.2.2.2⟩

/-! Characterizations of the single-step machinery. -/

theorem length_stepAll (l : List SymbolStream) : (stepAll l).length = l.length := by
  simp [stepAll]

theorem get_stepAll (l : List SymbolStream) (i : Nat) (h : i < l.length)
    (h2 : i < (stepAll l).length) :
    (stepAll l).get ⟨i, h2⟩ = (stepOne (l.get ⟨i, h⟩)).1 := by
  simp [stepAll]

theorem stepOne_of_avail (st : SymbolStream) (rows : List Snapshot)
    (hrows : st.rows = some rows) (hidx : st.idx < rows.length) :
    (stepOne st).1 = { st with idx := st.idx + 1 } ∧
    (stepOne st).2 = some (st.symbol, rows.get ⟨st.idx, hidx⟩) := by
  simp [stepOne, hrows, List.getElem?_eq_getElem hidx]

theorem stepOne_none_iff (st : SymbolStream) :
    (stepOne st).2 = none ↔ ∀ rows, st.rows = some rows → rows.length ≤ st.idx := by
  cases hr : st.rows with
  | none => simp [stepOne, hr]
  | some rows =>
    cases hq : rows[st.idx]? with
    | none =>
      simp only [stepOne, hr, hq]
      rw [List.getElem?_eq_none_iff] at hq
      simp [hq]
    | some row =>
      simp only [stepOne, hr, hq]
      have hlt := (List.getElem?_eq_some.mp hq).1
      simp only [reduceCtorEq, false_iff, not_forall]
      exact ⟨rows, rfl, by omega⟩

theorem stepOne_some_inv (st : SymbolStream) (sd : String × Snapshot)
    (h : (stepOne st).2 = some sd) :
    ∃ rows, st.rows = some rows ∧
      ∃ hidx : st.idx < rows.length, sd = (st.symbol, rows.get ⟨st.idx, hidx⟩) := by
  cases hr : st.rows with
  | none => simp [stepOne, hr] at h
  | some rows =>
    cases hq : rows[st.idx]? with
    | none => simp [stepOne, hr, hq] at h
    | some row =>
      rcases List.getElem?_eq_some.mp hq with ⟨hlt, hget⟩
      refine ⟨rows, rfl, hlt, ?_⟩
      simp only [stepOne, hr, hq, Option.some_inj] at h
      rw [← h, List.get_eq_getElem, hget]

theorem mem_collectData_of (l : List SymbolStream) (st : SymbolStream)
    (sd : String × Snapshot) (hst : st ∈ l) (h2 : (stepOne st).2 = some sd) :
    sd ∈ collectData l :=
  List.mem_filterMap.mpr ⟨st, hst, h2⟩

theorem mem_collectData (l : List SymbolStream) (sd : String × Snapshot)
    (h : sd ∈ collectData l) : ∃ st ∈ l, (stepOne st).2 = some sd :=
  List.mem_filterMap.mp h

theorem collectData_eq_nil_iff (l : List SymbolStream) :
    collectData l = [] ↔ ∀ st ∈ l, (stepOne st).2 = none := by
  simp [collectData, List.filterMap_eq_nil_iff]

theorem minTs_eq_none_iff (data : List (String × Snapshot)) :
    minTs data = none ↔ data = [] := by
  cases data with
  | nil => simp [minTs]
  | cons sd rest =>
    simp only [minTs]
    cases minTs rest <;> simp

theorem minTs_le (data : List (String × Snapshot)) (m : Int)
    (h : minTs data = some m) : ∀ sd ∈ data, m ≤ sd.2.ts := by
  induction data generalizing m with
  | nil => simp [minTs] at h
  | cons sd0 rest ih =>
    simp only [minTs] at h
    cases hr : minTs rest with
    | none =>
      rw [hr] at h
      have hnil := (minTs_eq_none_iff rest).mp hr
      rw [Option.some_inj] at h
      subst hnil
      intro x hx
      rcases List.mem_singleton.mp hx with rfl
      omega
    | some m0 =>
      rw [hr, Option.some_inj] at h
      intro x hx
      rcases List.mem_cons.mp hx with rfl | hx0
      · subst h; split <;> omega
      · have := ih m0 hr x hx0
        subst h
        split <;> omega

theorem minTs_mem (data : List (String × Snapshot)) (m : Int)
    (h : minTs data = some m) : ∃ sd ∈ data, sd.2.ts = m := by
  induction data generalizing m with
  | nil => simp [minTs] at h
  | cons sd0 rest ih =>
    simp only [minTs] at h
    cases hr : minTs rest with
    | none =>
      rw [hr, Option.some_inj] at h
      exact ⟨sd0, List.mem_cons_self _ _, h⟩
    | some m0 =>
      rw [hr, Option.some_inj] at h
      by_cases hlt : sd0.2.ts < m0
      · rw [if_pos hlt] at h
        exact ⟨sd0, List.mem_cons_self _ _, h⟩
      · rw [if_neg hlt] at h
        rcases ih m0 hr with ⟨x, hx, hts⟩
        exact ⟨x, List.mem_cons_of_mem _ hx, by omega⟩

theorem nextStep_of_some (s : SimulationEngine) (m : Int)
    (h : minTs (collectData s.streams) = some m) :
    (nextStep s).1 = true ∧
    (nextStep s).2 =
      update_state { s with streams := stepAll s.streams } m (collectData s.streams) := by
  simp [nextStep, h]

theorem nextStep_of_none (s : SimulationEngine)
    (h : minTs (collectData s.streams) = none) :
    (nextStep s).1 = false ∧ (nextStep s).2 = s := by
  simp [nextStep, h]

theorem nextStep_time_of_some (s : SimulationEngine) (m : Int)
    (h : minTs (collectData s.streams) = some m) :
    (nextStep s).2.current_time = m := by
  rw [(nextStep_of_some s m h).2]
  exact (update_state_fields _ m _).1

theorem nextStep_true_of_avail (s : SimulationEngine) (st : SymbolStream)
    (hst : st ∈ s.streams) (rows : List Snapshot) (hrows : st.rows = some rows)
    (hidx : st.idx < rows.length) : (nextStep s).1 = true := by
  have hstep := stepOne_of_avail st rows hrows hidx
  have hsd := mem_collectData_of s.streams st _ hst hstep.2
  cases hmt : minTs (collectData s.streams) with
  | none =>
    rw [(minTs_eq_none_iff _).mp hmt] at hsd
    exact absurd hsd (List.not_mem_nil _)
  | some m => exact (nextStep_of_some s m hmt).1

/-! Characterizations of the jump-to-time machinery. -/

theorem findFirstGE_some (t : Int) :
    ∀ (l : List Snapshot) (j : Nat), findFirstGE t l = some j →
      ∃ h : j < l.length, t ≤ (l.get ⟨j, h⟩).ts ∧
        ∀ k (hk : k < l.length), k < j → (l.get ⟨k, hk⟩).ts < t := by
  intro l
  induction l with
  | nil => intro j h; simp [findFirstGE] at h
  | cons r rest ih =>
    intro j h
    simp only [findFirstGE] at h
    by_cases hge : t ≤ r.ts
    · rw [if_pos hge, Option.some_inj] at h
      subst h
      refine ⟨Nat.succ_pos _, by simpa using hge, ?_⟩
      intro k hk hk0
      omega
    · rw [if_neg hge] at h
      cases hr : findFirstGE t rest with
      | none => rw [hr] at h; simp at h
      | some j0 =>
        rw [hr] at h
        simp only [Option.map_some', Option.some_inj] at h
        subst h
        obtain ⟨hlt, hts, hmin⟩ := ih j0 hr
        refine ⟨Nat.succ_lt_succ hlt, ?_, ?_⟩
        · simp only [List.get_eq_getElem, List.getElem_cons_succ]
          simp only [List.get_eq_getElem] at hts
          exact hts
        · intro k hk hk0
          cases k with
          | zero =>
            simp only [List.get_eq_getElem, List.getElem_cons_zero]
            omega
          | succ k0 =>
            simp only [List.get_eq_getElem, List.getElem_cons_succ]
            have h2 := hmin k0 (by omega) (by omega)
            simp only [List.get_eq_getElem] at h2
            exact h2

theorem findFirstGE_none (t : Int) :
    ∀ (l : List Snapshot), findFirstGE t l = none ↔ ∀ r ∈ l, r.ts < t := by
  intro l
  induction l with
  | nil => simp [findFirstGE]
  | cons r rest ih =>
    simp only [findFirstGE]
    by_cases hge : t ≤ r.ts
    · rw [if_pos hge]
      constructor
      · intro h; exact absurd h (by simp)
      · intro h; exact absurd (h r (List.mem_cons_self r rest)) (by omega)
    · rw [if_neg hge, Option.map_eq_none', ih]
      constructor
      · intro h x hx
        rcases List.mem_cons.mp hx with rfl | hx0
        · omega
        · exact h x hx0
      · intro h x hx
        exact h x (List.mem_cons_of_mem _ hx)

theorem jumpOne_shape (t : Int) (st : SymbolStream) :
    (jumpOne t st).1.symbol = st.symbol ∧ (jumpOne t st).1.rows = st.rows ∧
    st.idx ≤ (jumpOne t st).1.idx := by
  simp only [jumpOne]
  repeat' split
  all_goals first
    | exact ⟨rfl, rfl, Nat.le_refl _⟩
    | exact ⟨rfl, rfl, Nat.le_add_right _ _⟩

theorem jumpOne_true_inv (t : Int) (st : SymbolStream)
    (h : (jumpOne t st).2 = true) :
    ∃ rows j, st.rows = some rows ∧ st.idx < rows.length ∧
      findFirstGE t (rows.drop st.idx) = some j ∧
      (jumpOne t st).1 = { st with idx := st.idx + j } := by
  cases hr : st.rows with
  | none => simp [jumpOne, hr] at h
  | some rows =>
    by_cases hlen : rows.length ≤ st.idx
    · simp [jumpOne, hr, hlen] at h
    · cases hf : findFirstGE t (rows.drop st.idx) with
      | none => simp [jumpOne, hr, hlen, hf] at h
      | some j =>
        refine ⟨rows, j, rfl, by omega, hf, ?_⟩
        simp [jumpOne, hr, hlen, hf]

theorem jumpOne_false_iff (t : Int) (st : SymbolStream) :
    (jumpOne t st).2 = false ↔ ∀ rows, st.rows = some rows →
      ∀ i (h : i < rows.length), st.idx ≤ i → (rows.get ⟨i, h⟩).ts < t := by
  cases hr : st.rows with
  | none =>
    constructor
    · intro _ rws hrws
      exact absurd hrws (by simp)
    · intro _
      simp [jumpOne, hr]
  | some rows =>
    by_cases hlen : rows.length ≤ st.idx
    · constructor
      · intro _ rws hrws i hi hip
        rw [Option.some_inj] at hrws
        subst hrws
        omega
      · intro _
        simp [jumpOne, hr, hlen]
    · cases hf : findFirstGE t (rows.drop st.idx) with
      | none =>
        constructor
        · intro _ rws hrws i hi hip
          rw [Option.some_inj] at hrws
          subst hrws
          have hlen2 : (rows.drop st.idx).length = rows.length - st.idx := by simp
          have hmem : rows.get ⟨i, hi⟩ ∈ rows.drop st.idx := by
            have hq : (rows.drop st.idx).get ⟨i - st.idx, by omega⟩ =
                rows.get ⟨i, hi⟩ := by
              simp only [List.get_eq_getElem, List.getElem_drop]
              congr 1
              omega
            rw [← hq]
            exact List.get_mem _ _ _
          exact (findFirstGE_none t _).mp hf _ hmem
        · intro _
          simp [jumpOne, hr, hlen, hf]
      | some j =>
        have htrue : (jumpOne t st).2 = true := by simp [jumpOne, hr, hlen, hf]
        rw [htrue]
        constructor
        · intro hcontra
          exact absurd hcontra (by simp)
        · intro hall
          exfalso
          obtain ⟨hjlt, hts, _⟩ := findFirstGE_some t _ j hf
          have hlen2 : (rows.drop st.idx).length = rows.length - st.idx := by simp
          have hidx2 : st.idx + j < rows.length := by omega
          have hget : (rows.drop st.idx).get ⟨j, hjlt⟩ =
              rows.get ⟨st.idx + j, hidx2⟩ := by
            simp [List.get_eq_getElem, List.getElem_drop]
          have hall2 := hall rows rfl (st.idx + j) hidx2 (by omega)
          rw [← hget] at hall2
          omega

theorem jump_to_time_false_iff (s : SimulationEngine) (t : Int) :
    (jump_to_time s t).1 = false ↔ ∀ st ∈ s.streams, (jumpOne t st).2 = false := by
  by_cases hany : jumpAny t s.streams = true
  · simp only [jump_to_time, hany, if_true]
    rcases List.any_eq_true.mp hany with ⟨st, hst, hj⟩
    obtain ⟨rows, j, hrows, hlt, hf, hshape⟩ := jumpOne_true_inv t st hj
    obtain ⟨hjlt, _, _⟩ := findFirstGE_some t _ j hf
    have hlen2 : (rows.drop st.idx).length = rows.length - st.idx := by simp
    have hmem2 : (jumpOne t st).1 ∈ jumpAll t s.streams :=
      List.mem_map_of_mem _ hst
    have htrue := nextStep_true_of_avail { s with streams := jumpAll t s.streams }
      ((jumpOne t st).1) hmem2 rows (by rw [hshape]; exact hrows)
      (by rw [hshape]; simp only []; omega)
    rw [htrue]
    constructor
    · intro h; exact absurd h (by simp)
    · intro hall
      exact absurd (hall st hst) (by simp [hj])
  · have hfalse := Bool.eq_false_iff.mpr (fun hx => hany hx)
    simp only [jump_to_time, hfalse, if_false]
    rw [eq_comm] at hfalse
    constructor
    · intro _
      intro st hst
      have := List.any_eq_false.mp hfalse.symm st hst
      simpa using this
    · intro _; rfl

theorem findFirstGE_drop_some (t : Int) (rows : List Snapshot) (idx : Nat)
    (i : Nat) (hi : i < rows.length) (hge : idx ≤ i)
    (hts : t ≤ (rows.get ⟨i, hi⟩).ts) :
    ∃ j, findFirstGE t (rows.drop idx) = some j := by
  cases hf : findFirstGE t (rows.drop idx) with
  | some j => exact ⟨j, rfl⟩
  | none =>
    exfalso
    have hlen2 : (rows.drop idx).length = rows.length - idx := by simp
    have hmem : rows.get ⟨i, hi⟩ ∈ rows.drop idx := by
      have hq : (rows.drop idx).get ⟨i - idx, by omega⟩ = rows.get ⟨i, hi⟩ := by
        simp only [List.get_eq_getElem, List.getElem_drop]
        congr 1
        omega
      rw [← hq]
      exact List.get_mem _ _ _
    have := (findFirstGE_none t _).mp hf _ hmem
    omega

theorem jumpOne_of_match (t : Int) (st : SymbolStream) (rows : List Snapshot)
    (hrows : st.rows = some rows) (j : Nat)
    (hf : findFirstGE t (rows.drop st.idx) = some j) :
    st.idx + j < rows.length ∧
    jumpOne t st = ({ st with idx := st.idx + j }, true) := by
  obtain ⟨hjlt, _, _⟩ := findFirstGE_some t _ j hf
  have hlen2 : (rows.drop st.idx).length = rows.length - st.idx := by simp
  have hlen : ¬ rows.length ≤ st.idx := by omega
  exact ⟨by omega, by simp [jumpOne, hrows, hlen, hf]⟩

theorem jumpOne_false_fst (t : Int) (st : SymbolStream)
    (h : (jumpOne t st).2 = false) : (jumpOne t st).1 = st := by
  cases hr : st.rows with
  | none => simp [jumpOne, hr]
  | some rows =>
    by_cases hlen : rows.length ≤ st.idx
    · simp [jumpOne, hr, hlen]
    · cases hf : findFirstGE t (rows.drop st.idx) with
      | none => simp [jumpOne, hr, hlen, hf]
      | some j => simp [jumpOne, hr, hlen, hf] at h

theorem pyTrunc_intCast (n : Int) : pyTrunc (n : Rat) = n := by
  simp [pyTrunc, Rat.num_intCast, Rat.den_intCast, Int.tdiv_one]

theorem pyTrunc_five_seconds : pyTrunc ((5 : Rat) * 1000000000) = 5000000000 := by
  rw [show ((5 : Rat) * 1000000000) = ((5000000000 : Int) : Rat) by norm_num]
  exact pyTrunc_intCast 5000000000

/-- Claim C2 (counterexample): after one engine step that first marks the
open long position to the new mid 110 (unrealized PnL 10) and then executes
the market sell that closes the position to size 0, `unrealized_pnl` is left
at its stale value 10, not 0 — `add_trade` never updates `unrealized_pnl`. -/
theorem c2_counterexample :
    (List.lookup "BTC" (nextStep c2State).2.positions).map
      (fun p => (p.size, p.unrealized_pnl)) = some ((0 : Rat), (10 : Rat)) := by
  simp only [nextStep, minTs, collectData, stepAll, stepOne, update_state, updateA,
    process_pending_orders, process_orders, processOneOrder, execute_order, draw_fill,
    apply_slippage, SimulationPosition.update_mark_price, SimulationPosition.add_trade,
    List.lookup, c2State, c2OpenPosition, c2SellOrder, List.filterMap, List.foldl,
    List.map, List.filter]
  simp
  norm_num

/-- Claim C2 (amended): `update_mark_price` establishes
`unrealized_pnl = size * (mark_price - avg_price)` whenever `size ≠ 0` and
leaves `unrealized_pnl` unchanged when `size = 0`; `add_trade` never updates
`unrealized_pnl`, so a trade that closes the position back to size 0 leaves
the stale unrealized PnL in place until the next mark-price refresh of a
nonzero position. -/
theorem c2_unrealized_pnl_amended (p : SimulationPosition) (price qty fee : Rat) :
    ((p.update_mark_price price).unrealized_pnl =
      if p.size ≠ 0 then p.size * (price - p.avg_price) else p.unrealized_pnl) ∧
    (p.add_trade qty price fee).unrealized_pnl = p.unrealized_pnl := by
  constructor
  · simp only [SimulationPosition.update_mark_price]
    split <;> simp
  · simp only [SimulationPosition.add_trade]
    repeat' split
    all_goals rfl

/-- Claim C5: `add_trade(signed_qty, price, fee)` satisfies the four-case
accounting — opening when `size = 0`; same-sign increase with size-weighted
average and untouched realized PnL; opposite-sign reduction realizing
`(-signed_qty)*(price - avg_price) - fee` with `avg_price` unchanged; and
opposite-sign close-or-flip realizing `size*(price - avg_price) - fee`, new
size `signed_qty + size`, and `avg_price = price` when the new size is
nonzero. -/
theorem c5_add_trade_cases (p : SimulationPosition) (qty price fee : Rat) :
    (p.size = 0 →
      (p.add_trade qty price fee).size = qty ∧
      (p.add_trade qty price fee).avg_price = price) ∧
    ((p.size > 0 ∧ qty > 0) ∨ (p.size < 0 ∧ qty < 0) →
      (p.add_trade qty price fee).avg_price =
        (p.size * p.avg_price + qty * price) / (p.size + qty) ∧
      (p.add_trade qty price fee).size = p.size + qty ∧
      (p.add_trade qty price fee).realized_pnl = p.realized_pnl) ∧
    ((p.size > 0 ∧ qty < 0) ∨ (p.size < 0 ∧ qty > 0) → |qty| < |p.size| →
      (p.add_trade qty price fee).realized_pnl =
        p.realized_pnl + ((-qty) * (price - p.avg_price) - fee) ∧
      (p.add_trade qty price fee).size = p.size + qty ∧
      (p.add_trade qty price fee).avg_price = p.avg_price) ∧
    ((p.size > 0 ∧ qty < 0) ∨ (p.size < 0 ∧ qty > 0) → |qty| ≥ |p.size| →
      (p.add_trade qty price fee).realized_pnl =
        p.realized_pnl + (p.size * (price - p.avg_price) - fee) ∧
      (p.add_trade qty price fee).size = qty + p.size ∧
      (qty + p.size ≠ 0 → (p.add_trade qty price fee).avg_price = price)) := by
  refine ⟨fun h0 => ?_, fun hsame => ?_, fun hopp hlt => ?_, fun hopp hge => ?_⟩
  · simp [SimulationPosition.add_trade, h0]
  · have hne : p.size ≠ 0 := by rcases hsame with ⟨h, _⟩ | ⟨h, _⟩ <;> linarith
    simp [SimulationPosition.add_trade, hne, hsame]
  · have hne : p.size ≠ 0 := by rcases hopp with ⟨h, _⟩ | ⟨h, _⟩ <;> linarith
    have hnotsame : ¬ ((p.size > 0 ∧ qty > 0) ∨ (p.size < 0 ∧ qty < 0)) := by
      rcases hopp with ⟨h1, h2⟩ | ⟨h1, h2⟩ <;> rintro (⟨g1, g2⟩ | ⟨g1, g2⟩) <;> linarith
    have hnotge : ¬ (|qty| ≥ |p.size|) := not_le.mpr hlt
    simp [SimulationPosition.add_trade, hne, hnotsame, hnotge]
  · have hne : p.size ≠ 0 := by rcases hopp with ⟨h, _⟩ | ⟨h, _⟩ <;> linarith
    have hnotsame : ¬ ((p.size > 0 ∧ qty > 0) ∨ (p.size < 0 ∧ qty < 0)) := by
      rcases hopp with ⟨h1, h2⟩ | ⟨h1, h2⟩ <;> rintro (⟨g1, g2⟩ | ⟨g1, g2⟩) <;> linarith
    have hsum : |qty| = |p.size| → qty + p.size = 0 := by
      intro habs
      rcases hopp with ⟨h1, h2⟩ | ⟨h1, h2⟩
      · rw [abs_of_neg h2, abs_of_pos h1] at habs
        linarith
      · rw [abs_of_pos h2, abs_of_neg h1] at habs
        linarith
    have hrealized : (p.add_trade qty price fee).realized_pnl =
        p.realized_pnl + (p.size * (price - p.avg_price) - fee) := by
      simp only [SimulationPosition.add_trade, if_neg hne, if_neg hnotsame, if_pos hge]
      repeat' split
      all_goals rfl
    have hsize : (p.add_trade qty price fee).size = qty + p.size := by
      simp only [SimulationPosition.add_trade, if_neg hne, if_neg hnotsame, if_pos hge]
      rcases lt_or_eq_of_le hge with hgt | heq
      · simp only [if_pos (show |qty| > |p.size| from hgt)]
        split <;> rfl
      · have h0 : qty + p.size = 0 := hsum heq.symm
        have hnotgt : ¬ (|qty| > |p.size|) := by rw [heq]; exact lt_irrefl _
        simp only [if_neg hnotgt]
        split <;> simp [h0]
    have havg : qty + p.size ≠ 0 → (p.add_trade qty price fee).avg_price = price := by
      intro hnz
      have hgt : |qty| > |p.size| := by
        rcases lt_or_eq_of_le hge with hgt | heq
        · exact hgt
        · exact absurd (hsum heq.symm) hnz
      simp only [SimulationPosition.add_trade, if_neg hne, if_neg hnotsame, if_pos hge,
        if_pos hgt]
      simp [hnz]
    exact ⟨hrealized, hsize, havg⟩

/-- Witness for claim C5: all four accounting cases instantiated on concrete
positions (open a flat position; add to a long of size 2; reduce it by 1;
flip it by selling 3). -/
theorem c5_add_trade_cases_witness :
    ((c5Pos0.add_trade 2 100 0).size = 2 ∧ (c5Pos0.add_trade 2 100 0).avg_price = 100) ∧
    ((c5PosLong.add_trade 2 110 0).avg_price =
        (c5PosLong.size * c5PosLong.avg_price + 2 * 110) / (c5PosLong.size + 2) ∧
      (c5PosLong.add_trade 2 110 0).size = c5PosLong.size + 2 ∧
      (c5PosLong.add_trade 2 110 0).realized_pnl = c5PosLong.realized_pnl) ∧
    ((c5PosLong.add_trade (-1) 110 1).realized_pnl =
        c5PosLong.realized_pnl + (-(-1) * (110 - c5PosLong.avg_price) - 1) ∧
      (c5PosLong.add_trade (-1) 110 1).size = c5PosLong.size + -1 ∧
      (c5PosLong.add_trade (-1) 110 1).avg_price = c5PosLong.avg_price) ∧
    ((c5PosLong.add_trade (-3) 110 1).realized_pnl =
        c5PosLong.realized_pnl + (c5PosLong.size * (110 - c5PosLong.avg_price) - 1) ∧
      (c5PosLong.add_trade (-3) 110 1).size = -3 + c5PosLong.size ∧
      (-3 + c5PosLong.size ≠ 0 → (c5PosLong.add_trade (-3) 110 1).avg_price = 110)) := by
  refine ⟨(c5_add_trade_cases c5Pos0 2 100 0).1 (by norm_num [c5Pos0, initPosition]),
    (c5_add_trade_cases c5PosLong 2 110 0).2.1
      (Or.inl ⟨by norm_num [c5PosLong], by norm_num⟩),
    (c5_add_trade_cases c5PosLong (-1) 110 1).2.2.1
      (Or.inl ⟨by norm_num [c5PosLong], by norm_num⟩) (by norm_num [c5PosLong]),
    (c5_add_trade_cases c5PosLong (-3) 110 1).2.2.2
      (Or.inl ⟨by norm_num [c5PosLong], by norm_num⟩) (by norm_num [c5PosLong])⟩

/-- Claim C10: `get_positions` with a one-element symbol list returns the
bare position record of that symbol; when that single symbol has no position
it raises `KeyError`; with two or more symbols it returns the symbol-keyed
map whose entries are exactly the subscribed symbols of the request
(unsubscribed ones silently omitted). -/
theorem c10_get_positions (s : SimulationEngine) (symbols : List String) :
    (∀ sym p, symbols = [sym] → List.lookup sym s.positions = some p →
      get_positions s symbols = Except.ok (PositionsResult.single (posDict p))) ∧
    (∀ sym, symbols = [sym] → List.lookup sym s.positions = none →
      get_positions s symbols = Except.error "KeyError") ∧
    (2 ≤ symbols.length →
      ∃ l, get_positions s symbols = Except.ok (PositionsResult.multi l) ∧
        (∀ sym d, (sym, d) ∈ l →
          ∃ p, List.lookup sym s.positions = some p ∧ d = posDict p) ∧
        (∀ sym ∈ symbols, ∀ p, List.lookup sym s.positions = some p →
          (sym, posDict p) ∈ l)) := by
  refine ⟨?_, ?_, ?_⟩
  · rintro sym p rfl hlk
    simp [get_positions, List.filterMap, hlk, List.lookup]
  · rintro sym rfl hlk
    simp [get_positions, List.filterMap, hlk]
  · intro hlen
    refine ⟨(symbols.filterMap
      (fun sym => (List.lookup sym s.positions).map (fun p => (sym, posDict p)))),
      ?_, ?_, ?_⟩
    · match symbols, hlen with
      | a :: b :: rest, _ => rfl
    · intro sym d hmem
      rcases List.mem_filterMap.mp hmem with ⟨sym0, _, hf⟩
      rcases Option.map_eq_some'.mp hf with ⟨p, hlk, hpair⟩
      rcases Prod.mk.injEq .. ▸ hpair with ⟨h1, h2⟩
      exact ⟨p, h1 ▸ hlk, h2.symm⟩
    · intro sym hsym p hlk
      exact List.mem_filterMap.mpr ⟨sym, hsym, by simp [hlk]⟩

/-- Witness for claim C10: on a concrete engine subscribed to "A" only,
querying ["A"] yields the bare record, querying ["B"] raises `KeyError`, and
querying ["A", "B"] yields a map. -/
theorem c10_get_positions_witness :
    get_positions c10State ["A"] = Except.ok (PositionsResult.single (posDict c10Pos)) ∧
    get_positions c10State ["B"] = Except.error "KeyError" ∧
    (∃ l, get_positions c10State ["A", "B"] = Except.ok (PositionsResult.multi l) ∧
      (∀ sym d, (sym, d) ∈ l →
        ∃ p, List.lookup sym c10State.positions = some p ∧ d = posDict p) ∧
      (∀ sym ∈ ["A", "B"], ∀ p, List.lookup sym c10State.positions = some p →
        (sym, posDict p) ∈ l)) :=
  ⟨(c10_get_positions c10State ["A"]).1 "A" c10Pos rfl rfl,
   (c10_get_positions c10State ["B"]).2.1 "B" rfl rfl,
   (c10_get_positions c10State ["A", "B"]).2.2 (by norm_num)⟩

/-- Membership through a successful association-list lookup. -/
theorem lookup_mem {β : Type} (k : String) (v : β) :
    ∀ l : List (String × β), List.lookup k l = some v → (k, v) ∈ l := by
  intro l
  induction l with
  | nil => intro h; simp [List.lookup] at h
  | cons p ps ih =>
    intro h
    obtain ⟨k2, v2⟩ := p
    simp only [List.lookup] at h
    cases hbe : k == k2 with
    | true =>
      have hk : k = k2 := eq_of_beq hbe
      rw [hbe] at h
      simp only [Option.some_inj] at h
      subst hk; subst h
      exact List.mem_cons_self _ _
    | false =>
      rw [hbe] at h
      exact List.mem_cons_of_mem _ (ih h)

/-- `filterMap` only looks at its function on members of the list. -/
theorem filterMap_congr_mem {α β : Type} (l : List α) (f g : α → Option β)
    (h : ∀ x ∈ l, f x = g x) : l.filterMap f = l.filterMap g := by
  induction l with
  | nil => rfl
  | cons x xs ih =>
    have ih2 := ih (fun y hy => h y (List.mem_cons_of_mem x hy))
    simp only [List.filterMap_cons, h x (List.mem_cons_self x xs), ih2]

/-- Allocation leaves the internal references and the old heap cells
unchanged. -/
theorem agree_alloc (es : QueryHeap) (objs : List HeapObj) :
    heapAgree (alloc es objs).1 es := by
  refine ⟨rfl, rfl, rfl, rfl, fun a ha => ?_⟩
  simp only [alloc]
  rw [List.get?_eq_getElem?, List.get?_eq_getElem?]
  exact List.getElem?_append_left ha

/-- Mutating a cell beyond the original heap preserves agreement with the
original state. -/
theorem agree_mutate_fresh {es2 es : QueryHeap} {a : Nat} {obj : HeapObj}
    (hfresh : es.heap.length ≤ a) (hag : heapAgree es2 es) :
    heapAgree (mutateRecord es2 a obj) es := by
  obtain ⟨h1, h2, h3, h4, h5⟩ := hag
  refine ⟨h1, h2, h3, h4, fun b hb => ?_⟩
  simp only [mutateRecord]
  rw [List.get?_eq_getElem?, List.getElem?_set_ne (by omega : a ≠ b),
    ← List.get?_eq_getElem?]
  exact h5 b hb

/-- Agreement preserves execution-record reads at old addresses. -/
theorem readExec_agree {es2 es : QueryHeap} (hag : heapAgree es2 es) {a : Nat}
    (ha : a < es.heap.length) : readExec es2 a = readExec es a := by
  simp only [readExec, hag.2.2.2.2 a ha]

/-- Agreement preserves order reads at old addresses. -/
theorem readOrder_agree {es2 es : QueryHeap} (hag : heapAgree es2 es) {a : Nat}
    (ha : a < es.heap.length) : readOrder es2 a = readOrder es a := by
  simp only [readOrder, hag.2.2.2.2 a ha]

/-- Agreement preserves position reads at old addresses. -/
theorem readPosition_agree {es2 es : QueryHeap} (hag : heapAgree es2 es)
    {a : Nat} (ha : a < es.heap.length) :
    readPosition es2 a = readPosition es a := by
  simp only [readPosition, hag.2.2.2.2 a ha]

/-- Agreement preserves snapshot reads at old addresses. -/
theorem readSnapshot_agree {es2 es : QueryHeap} (hag : heapAgree es2 es)
    {a : Nat} (ha : a < es.heap.length) :
    readSnapshot es2 a = readSnapshot es a := by
  simp only [readSnapshot, hag.2.2.2.2 a ha]

/-- Agreement preserves the dereferenced execution history. -/
theorem readHistory_agree {es2 es : QueryHeap} (hwf : WF es)
    (hag : heapAgree es2 es) : readHistory es2 = readHistory es := by
  simp only [readHistory, hag.1]
  exact List.map_congr_left (fun a ha => readExec_agree hag (hwf.1 a ha))

/-- Agreement preserves the dereferenced order history. -/
theorem readOrders_agree {es2 es : QueryHeap} (hwf : WF es)
    (hag : heapAgree es2 es) : readOrders es2 = readOrders es := by
  simp only [readOrders, hag.2.1]
  exact List.map_congr_left (fun a ha => readOrder_agree hag (hwf.2.1 a ha))

/-- Agreement preserves the dereferenced positions. -/
theorem readPositions_agree {es2 es : QueryHeap} (hwf : WF es)
    (hag : heapAgree es2 es) : readPositions es2 = readPositions es := by
  simp only [readPositions, hag.2.2.1]
  exact List.map_congr_left (fun p hp => by
    rw [readPosition_agree hag (hwf.2.2.1 p hp)])

/-- Agreement preserves the dereferenced market cache. -/
theorem readMarket_agree {es2 es : QueryHeap} (hwf : WF es)
    (hag : heapAgree es2 es) : readMarket es2 = readMarket es := by
  simp only [readMarket, hag.2.2.2.1]
  exact List.map_congr_left (fun p hp => by
    rw [readSnapshot_agree hag (hwf.2.2.2 p hp)])

/-- Agreement preserves the records `get_trades` builds. -/
theorem get_trades_records_agree {es2 es : QueryHeap} (hwf : WF es)
    (hag : heapAgree es2 es) (sym : String) (limit : Nat) :
    get_trades_records es2 sym limit = get_trades_records es sym limit := by
  simp only [get_trades_records, hag.1]
  exact filterMap_congr_mem _ _ _ (fun a ha => by
    rw [readExec_agree hag (hwf.1 a (List.mem_of_mem_drop ha))])

/-- Agreement preserves the records `get_filled_orders` builds. -/
theorem get_filled_orders_records_agree {es2 es : QueryHeap} (hwf : WF es)
    (hag : heapAgree es2 es) (osym : Option String) (limit : Nat) :
    get_filled_orders_records es2 osym limit =
      get_filled_orders_records es osym limit := by
  simp only [get_filled_orders_records, hag.2.1]
  exact filterMap_congr_mem _ _ _ (fun a ha => by
    rw [readOrder_agree hag (hwf.2.1 a (List.mem_of_mem_drop ha))])

/-- Agreement preserves the per-position records `get_pnl` builds. -/
theorem get_pnl_pre_agree {es2 es : QueryHeap} (hwf : WF es)
    (hag : heapAgree es2 es) (t : Int) (osym : Option String) :
    get_pnl_pre es2 t osym = get_pnl_pre es t osym := by
  simp only [get_pnl_pre, hag.2.2.1]
  exact filterMap_congr_mem _ _ _ (fun p hp => by
    rw [readPosition_agree hag (hwf.2.2.1 p hp)])

/-- Agreement preserves the record list `get_pnl` returns. -/
theorem get_pnl_records_agree {es2 es : QueryHeap} (hwf : WF es)
    (hag : heapAgree es2 es) (t : Int) (osym : Option String) (limit : Nat) :
    get_pnl_records es2 t osym limit = get_pnl_records es t osym limit := by
  simp only [get_pnl_records, get_pnl_pre_agree hwf hag t osym]

/-- Agreement preserves the records `get_positions` builds. -/
theorem get_positions_records_agree {es2 es : QueryHeap} (hwf : WF es)
    (hag : heapAgree es2 es) (symbols : List String) :
    get_positions_records es2 symbols = get_positions_records es symbols := by
  simp only [get_positions_records, hag.2.2.1]
  refine filterMap_congr_mem _ _ _ (fun sym _ => ?_)
  cases hlk : List.lookup sym es.positions with
  | none => rfl
  | some a =>
    show (readPosition es2 a).map _ = (readPosition es a).map _
    rw [readPosition_agree hag
      (hwf.2.2.1 (sym, a) (lookup_mem sym a es.positions hlk))]

/-- Agreement preserves the record `get_orderbook` builds. -/
theorem get_orderbook_records_agree {es2 es : QueryHeap} (hwf : WF es)
    (hag : heapAgree es2 es) (sym : String) (depth : Nat) :
    get_orderbook_records es2 sym depth = get_orderbook_records es sym depth := by
  simp only [get_orderbook_records, hag.2.2.2.1]
  cases hlk : List.lookup sym es.current_data with
  | none => rfl
  | some a =>
    have hs : readSnapshot es2 a = readSnapshot es a :=
      readSnapshot_agree hag
        (hwf.2.2.2 (sym, a) (lookup_mem sym a es.current_data hlk))
    show (match readSnapshot es2 a with
      | none => ([] : List HeapObj)
      | some row => [HeapObj.orderbookDict (orderbookDictOf row depth)]) =
      (match readSnapshot es a with
      | none => ([] : List HeapObj)
      | some row => [HeapObj.orderbookDict (orderbookDictOf row depth)])
    rw [hs]

/-- Any query that allocates its records fresh and rebuilds them the same
way on any agreeing state satisfies the copy guarantee. -/
theorem freshQuery_alloc (es : QueryHeap) (objs : List HeapObj)
    (rebuild : QueryHeap → List HeapObj) (hwf : WF es)
    (hreb : ∀ es2, heapAgree es2 es → rebuild es2 = rebuild es) :
    FreshQuery es (alloc es objs) rebuild := by
  have hagree : heapAgree (alloc es objs).1 es := agree_alloc es objs
  refine ⟨?_, readHistory_agree hwf hagree, readOrders_agree hwf hagree,
    readPositions_agree hwf hagree, readMarket_agree hwf hagree, ?_⟩
  · intro a ha
    simp only [alloc, List.mem_map, List.mem_range] at ha
    obtain ⟨k, _, hk⟩ := ha
    omega
  · intro a ha obj
    have hfresh : es.heap.length ≤ a := by
      simp only [alloc, List.mem_map, List.mem_range] at ha
      obtain ⟨k, _, hk⟩ := ha
      omega
    have hagree2 : heapAgree (mutateRecord (alloc es objs).1 a obj) es :=
      agree_mutate_fresh hfresh hagree
    exact ⟨readHistory_agree hwf hagree2, readOrders_agree hwf hagree2,
      readPositions_agree hwf hagree2, readMarket_agree hwf hagree2,
      hreb _ hagree2⟩

/-- Claim C9 (counterexample): `get_trade_history` hands out the engine's
internal execution records themselves (Python appends the `exec` dicts, not
copies); mutating the record returned for the one-execution history changes
the engine's internal execution history, so a second identical query no
longer sees the original record. -/
theorem c9_counterexample :
    get_trade_history c9Heap none 50 = [0] ∧
    readHistory c9Heap = [some c9Rec] ∧
    readHistory (mutateRecord c9Heap 0 (HeapObj.exec c9RecMut)) = [some c9RecMut] ∧
    readHistory (mutateRecord c9Heap 0 (HeapObj.exec c9RecMut)) ≠ readHistory c9Heap := by
  refine ⟨rfl, rfl, rfl, ?_⟩
  intro h
  rw [show readHistory (mutateRecord c9Heap 0 (HeapObj.exec c9RecMut)) =
        [some c9RecMut] from rfl,
    show readHistory c9Heap = [some c9Rec] from rfl] at h
  have h2 := List.head_eq_of_cons_eq h
  rw [Option.some_inj] at h2
  have hprice := congrArg ExecRecord.price h2
  simp only [c9RecMut, c9Rec] at hprice
  norm_num at hprice

/-- Claim C9 (amended): on any well-formed state, `get_trades`,
`get_filled_orders`, `get_pnl`, `get_positions` and (when it succeeds)
`get_orderbook` each return freshly allocated records — the query changes no
internal view, and mutating any returned record neither changes any internal
view nor what an identical repeated query builds — whereas
`get_trade_history` returns references into the engine's internal execution
history: every returned element is an internal reference, and overwriting
the record behind it with a different record changes the engine's internal
history as seen by any later query. -/
theorem c9_query_copies_amended (es : QueryHeap) (hwf : WF es)
    (sym : String) (osym : Option String) (limit : Nat)
    (symbols : List String) (depth : Nat) (t : Int) :
    FreshQuery es (get_trades es sym limit)
      (fun h => get_trades_records h sym limit) ∧
    FreshQuery es (get_filled_orders es osym limit)
      (fun h => get_filled_orders_records h osym limit) ∧
    FreshQuery es (get_pnl es t osym limit)
      (fun h => get_pnl_records h t osym limit) ∧
    FreshQuery es (get_positions_refs es symbols)
      (fun h => get_positions_records h symbols) ∧
    (∀ res, get_orderbook es sym depth = Except.ok res →
      FreshQuery es res (fun h => get_orderbook_records h sym depth)) ∧
    (∀ a ∈ get_trade_history es osym limit,
      a ∈ es.execution_history ∧
      ∀ r r2, readExec es a = some r → r2 ≠ r →
        readHistory (mutateRecord es a (HeapObj.exec r2)) ≠ readHistory es) := by
  refine ⟨freshQuery_alloc es _ _ hwf
      (fun es2 hag => get_trades_records_agree hwf hag sym limit),
    freshQuery_alloc es _ _ hwf
      (fun es2 hag => get_filled_orders_records_agree hwf hag osym limit),
    freshQuery_alloc es _ _ hwf
      (fun es2 hag => get_pnl_records_agree hwf hag t osym limit),
    freshQuery_alloc es _ _ hwf
      (fun es2 hag => get_positions_records_agree hwf hag symbols),
    ?_, ?_⟩
  · intro res hok
    cases hlk : List.lookup sym es.current_data with
    | none => simp [get_orderbook, hlk] at hok
    | some a =>
      cases hrd : readSnapshot es a with
      | none => simp [get_orderbook, hlk, hrd] at hok
      | some row =>
        simp only [get_orderbook, hlk, hrd, Except.ok.injEq] at hok
        subst hok
        exact freshQuery_alloc es
          [HeapObj.orderbookDict (orderbookDictOf row depth)]
          (fun h => get_orderbook_records h sym depth) hwf
          (fun es2 hag => get_orderbook_records_agree hwf hag sym depth)
  · intro a ha
    have hmem : a ∈ es.execution_history :=
      List.mem_of_mem_drop (List.mem_of_mem_filter ha)
    refine ⟨hmem, fun r r2 hr hne hcontra => ?_⟩
    have hlt : a < es.heap.length := hwf.1 a hmem
    have hpt := (List.map_eq_map_iff.mp hcontra) a hmem
    rw [hr] at hpt
    simp only [readExec, mutateRecord] at hpt
    rw [List.get?_eq_getElem?, List.getElem?_set_self hlt] at hpt
    simp at hpt
    exact hne hpt

/-- Witness for claim C9's amended theorem: on the concrete four-object
heap, `get_trades` and `get_filled_orders` are fresh-copy queries while
`get_trade_history` hands out an internal reference. -/
theorem c9_query_copies_amended_witness :
    WF c9Heap ∧
    FreshQuery c9Heap (get_trades c9Heap "BTC" 50)
      (fun h => get_trades_records h "BTC" 50) ∧
    FreshQuery c9Heap (get_filled_orders c9Heap (some "BTC") 50)
      (fun h => get_filled_orders_records h (some "BTC") 50) ∧
    (∀ a ∈ get_trade_history c9Heap (some "BTC") 50,
      a ∈ c9Heap.execution_history ∧
      ∀ r r2, readExec c9Heap a = some r → r2 ≠ r →
        readHistory (mutateRecord c9Heap a (HeapObj.exec r2)) ≠
          readHistory c9Heap) := by
  have hwf : WF c9Heap := by
    refine ⟨fun a ha => ?_, fun a ha => ?_, fun p hp => ?_, fun p hp => ?_⟩ <;>
      simp_all [c9Heap]
  have h := c9_query_copies_amended c9Heap hwf "BTC" (some "BTC") 50 ["BTC"] 25 5
  exact ⟨hwf, h.1, h.2.1, h.2.2.2.2.2⟩

/-- Claim C1 (counterexample): with BTC at t = 1 and ETH at t = 2, a single
`next()` consumes BOTH snapshots (each stream's index advances to 1), sets
`current_time` to the minimum 1, and puts the ETH snapshot — whose timestamp
2 exceeds the new `current_time` — into the market-state cache. The code has
no peek: `_get_next_data_point` consumes unconditionally from every symbol. -/
theorem c1_counterexample :
    (nextStep c1State).1 = true ∧
    (nextStep c1State).2.current_time = 1 ∧
    (nextStep c1State).2.streams.map SymbolStream.idx = [1, 1] ∧
    ("ETH", c1SnapE) ∈ (nextStep c1State).2.current_data ∧
    (nextStep c1State).2.current_time < c1SnapE.ts := by
  simp only [nextStep, minTs, collectData, stepAll, stepOne, update_state, markFold,
    process_pending_orders, process_orders, processFold, processOneOrder, updateA,
    c1State, c1SnapB, c1SnapE, List.filterMap, List.foldl, List.map, List.filter]
  simp

/-- Claim C1 (amended): a single step (`next` with no target) consumes the
next snapshot of EVERY non-exhausted symbol — not only those at the minimal
timestamp — advancing each such stream's index by exactly one; it sets
`current_time` to the minimum timestamp among the consumed snapshots and
makes all of them (including any whose timestamp exceeds the new
`current_time`) visible in the market-state cache. -/
theorem c1_single_step_amended (s : SimulationEngine)
    (i : Nat) (hi : i < s.streams.length) (rows : List Snapshot)
    (hrows : (s.streams.get ⟨i, hi⟩).rows = some rows)
    (hidx : (s.streams.get ⟨i, hi⟩).idx < rows.length) :
    (nextStep s).1 = true ∧
    (nextStep s).2.current_data = collectData s.streams ∧
    ((s.streams.get ⟨i, hi⟩).symbol,
      rows.get ⟨(s.streams.get ⟨i, hi⟩).idx, hidx⟩) ∈ (nextStep s).2.current_data ∧
    (nextStep s).2.current_time ≤ (rows.get ⟨(s.streams.get ⟨i, hi⟩).idx, hidx⟩).ts ∧
    (∃ sd ∈ collectData s.streams, sd.2.ts = (nextStep s).2.current_time) ∧
    (∀ sd ∈ collectData s.streams, (nextStep s).2.current_time ≤ sd.2.ts) ∧
    (nextStep s).2.streams = stepAll s.streams ∧
    (∀ j (hj : j < s.streams.length) (hj2 : j < (stepAll s.streams).length),
      ∀ rws, (s.streams.get ⟨j, hj⟩).rows = some rws →
        (s.streams.get ⟨j, hj⟩).idx < rws.length →
        ((stepAll s.streams).get ⟨j, hj2⟩).idx = (s.streams.get ⟨j, hj⟩).idx + 1) := by
  have hmem_st : s.streams.get ⟨i, hi⟩ ∈ s.streams := List.get_mem _ _ hi
  have hstep := stepOne_of_avail (s.streams.get ⟨i, hi⟩) rows hrows hidx
  have hsd := mem_collectData_of s.streams (s.streams.get ⟨i, hi⟩) _ hmem_st hstep.2
  obtain ⟨m, hm⟩ : ∃ m, minTs (collectData s.streams) = some m := by
    cases hmt : minTs (collectData s.streams) with
    | none =>
      rw [(minTs_eq_none_iff _).mp hmt] at hsd
      exact absurd hsd (List.not_mem_nil _)
    | some m0 => exact ⟨m0, rfl⟩
  have hns := nextStep_of_some s m hm
  have hus := update_state_fields { s with streams := stepAll s.streams } m
    (collectData s.streams)
  have hdata : (nextStep s).2.current_data = collectData s.streams := by
    rw [hns.2]; exact hus.2.1
  have htime : (nextStep s).2.current_time = m := by
    rw [hns.2]; exact hus.1
  refine ⟨hns.1, hdata, ?_, ?_, ?_, ?_, ?_, ?_⟩
  · rw [hdata]; exact hsd
  · rw [htime]; exact minTs_le _ m hm _ hsd
  · rw [htime]; exact minTs_mem _ m hm
  · rw [htime]; exact minTs_le _ m hm
  · rw [hns.2]; exact hus.2.2.1
  · intro j hj hj2 rws hrws0 hidx0
    rw [get_stepAll s.streams j hj hj2, (stepOne_of_avail _ rws hrws0 hidx0).1]

/-- Witness for claim C1's amended theorem: on the two-symbol engine the
step succeeds and the ETH snapshot (timestamp 2, above the new current time
1) is visible in the cache, with both indices advanced. -/
theorem c1_single_step_amended_witness :
    (nextStep c1State).1 = true ∧
    (("ETH" : String), c1SnapE) ∈ (nextStep c1State).2.current_data := by
  have h := c1_single_step_amended c1State 1 (by decide) [c1SnapE] rfl (by decide)
  exact ⟨h.1, h.2.2.1⟩

/-- Claim C8 (counterexample): with one unconsumed snapshot left at t = 10,
`next(target_time=100)` returns false (no symbol has a snapshot at or after
the target, so `advanced_any` stays false) even though the stream is not
exhausted. -/
theorem c8_counterexample :
    (SimulationEngine.next c8State (some 100)).1 = false ∧
    ∃ st ∈ c8State.streams, ∃ rows, st.rows = some rows ∧ st.idx < rows.length := by
  constructor
  · rfl
  · refine ⟨{ symbol := "BTC", rows := some [c8Snap0, c8Snap1], idx := 1 }, ?_,
      [c8Snap0, c8Snap1], rfl, by decide⟩
    simp [c8State]

/-- Claim C8 (amended): plain `next()` returns false exactly when every
stream is fully consumed; but `next(target_time)` (jump-to-time, used by the
`wait_*` family) returns false exactly when no symbol has a remaining
snapshot with timestamp at or after the target — which can happen while
unconsumed snapshots (all earlier than the target) remain. -/
theorem c8_exhaustion_amended (s : SimulationEngine) (t : Int) :
    ((nextStep s).1 = false ↔
      ∀ st ∈ s.streams, ∀ rows, st.rows = some rows → rows.length ≤ st.idx) ∧
    ((jump_to_time s t).1 = false ↔
      ∀ st ∈ s.streams, ∀ rows, st.rows = some rows →
        ∀ i (h : i < rows.length), st.idx ≤ i → (rows.get ⟨i, h⟩).ts < t) := by
  constructor
  · constructor
    · intro hfalse st hst rows hrows
      by_contra hlt
      push_neg at hlt
      have htrue := nextStep_true_of_avail s st hst rows hrows hlt
      rw [htrue] at hfalse
      exact absurd hfalse (by simp)
    · intro hall
      have hnil : collectData s.streams = [] := (collectData_eq_nil_iff _).mpr
        (fun st hst => (stepOne_none_iff st).mpr (hall st hst))
      exact (nextStep_of_none s (by rw [hnil]; rfl)).1
  · rw [jump_to_time_false_iff]
    constructor
    · intro h st hst
      exact (jumpOne_false_iff t st).mp (h st hst)
    · intro h st hst
      exact (jumpOne_false_iff t st).mpr (h st hst)

/-- Claim C4 (counterexample): with symbol A's next snapshot at t = 10 s and
symbol B's at t = 1 s, `wait_seconds(5)` (target 5·10⁹ ns) succeeds but the
resulting `current_time` is 10⁹ — B's index was left unchanged because its
remaining snapshots all lie before the target, and the subsequent single
step consumed B's earlier snapshot — so `current_time` is neither the
timestamp of the first snapshot at or after the target nor an advance of at
least 5·10⁹ ns, although such a snapshot exists (A's). -/
theorem c4_counterexample :
    (wait_seconds c4TwoState 5).1 = true ∧
    (wait_seconds c4TwoState 5).2.current_time = 1000000000 ∧
    (wait_seconds c4TwoState 5).2.current_time < 5000000000 := by
  simp only [wait_seconds, SimulationEngine.next, pyTrunc_five_seconds, jump_to_time,
    jumpAny, jumpAll, jumpOne, findFirstGE, nextStep, minTs, collectData, stepAll,
    stepOne, update_state, markFold, process_pending_orders, process_orders,
    processFold, processOneOrder, updateA, c4TwoState, c4Snap0, c4SnapLate,
    c4SnapEarly, List.map, List.filterMap, List.foldl, List.filter, List.any,
    List.drop]
  simp

/-- Claim C4 (amended): per symbol, jump-to-time advances the index to the
smallest remaining index whose timestamp is at or after the target when such
an index exists, and leaves the index unchanged when the symbol's remaining
snapshots all lie before the target. Whenever some symbol still holds
unconsumed data and EVERY such symbol has a remaining snapshot at or after
target T (in particular for a single-symbol engine), the jump succeeds and
the subsequent single step sets `current_time` to the minimum timestamp
among the rows then consumed — each of them its symbol's first remaining
row at or after T — so `current_time` lands at or after T, and
`wait_seconds` with such a target returns true and advances `current_time`
to at least the target. -/
theorem c4_jump_to_time_amended (s : SimulationEngine) (t : Int) :
    (∀ st ∈ s.streams, ∀ rows, st.rows = some rows → ∀ j,
      findFirstGE t (rows.drop st.idx) = some j →
      ∃ hj : st.idx + j < rows.length,
        (jumpOne t st).1 = { st with idx := st.idx + j } ∧
        t ≤ (rows.get ⟨st.idx + j, hj⟩).ts ∧
        ∀ k (hk : k < rows.length), st.idx ≤ k → k < st.idx + j →
          (rows.get ⟨k, hk⟩).ts < t) ∧
    (∀ st ∈ s.streams,
      (∀ rows, st.rows = some rows →
        ∀ i (h : i < rows.length), st.idx ≤ i → (rows.get ⟨i, h⟩).ts < t) →
      (jumpOne t st).1 = st) ∧
    ((∃ st ∈ s.streams, ∃ rows, st.rows = some rows ∧ st.idx < rows.length) →
      (∀ st ∈ s.streams, ∀ rows, st.rows = some rows → st.idx < rows.length →
        ∃ i, ∃ hi : i < rows.length, st.idx ≤ i ∧ t ≤ (rows.get ⟨i, hi⟩).ts) →
      (jump_to_time s t).1 = true ∧
      t ≤ (jump_to_time s t).2.current_time ∧
      (∃ sd ∈ collectData (jumpAll t s.streams),
        sd.2.ts = (jump_to_time s t).2.current_time) ∧
      (∀ sd ∈ collectData (jumpAll t s.streams),
        (jump_to_time s t).2.current_time ≤ sd.2.ts)) ∧
    (∀ q : Rat, s.current_time + pyTrunc (q * 1000000000) = t →
      (∃ st ∈ s.streams, ∃ rows, st.rows = some rows ∧ st.idx < rows.length) →
      (∀ st ∈ s.streams, ∀ rows, st.rows = some rows → st.idx < rows.length →
        ∃ i, ∃ hi : i < rows.length, st.idx ≤ i ∧ t ≤ (rows.get ⟨i, hi⟩).ts) →
      (wait_seconds s q).1 = true ∧ t ≤ (wait_seconds s q).2.current_time) := by
  have hA : ∀ st ∈ s.streams, ∀ rows, st.rows = some rows → ∀ j,
      findFirstGE t (rows.drop st.idx) = some j →
      ∃ hj : st.idx + j < rows.length,
        (jumpOne t st).1 = { st with idx := st.idx + j } ∧
        t ≤ (rows.get ⟨st.idx + j, hj⟩).ts ∧
        ∀ k (hk : k < rows.length), st.idx ≤ k → k < st.idx + j →
          (rows.get ⟨k, hk⟩).ts < t := by
    intro st hst rows hrows j hf
    obtain ⟨hjlt, hts2, hmin2⟩ := findFirstGE_some t _ j hf
    obtain ⟨hj, hone⟩ := jumpOne_of_match t st rows hrows j hf
    have hlen2 : (rows.drop st.idx).length = rows.length - st.idx := by simp
    have hgetj : (rows.drop st.idx).get ⟨j, hjlt⟩ = rows.get ⟨st.idx + j, hj⟩ := by
      simp [List.get_eq_getElem, List.getElem_drop]
    refine ⟨hj, by rw [hone], by rw [← hgetj]; exact hts2, ?_⟩
    intro k hk h1 h2
    have hgetk : (rows.drop st.idx).get ⟨k - st.idx, by omega⟩ = rows.get ⟨k, hk⟩ := by
      simp only [List.get_eq_getElem, List.getElem_drop]
      congr 1
      omega
    have h3 := hmin2 (k - st.idx) (by omega) (by omega)
    rw [hgetk] at h3
    exact h3
  have hC : (∃ st ∈ s.streams, ∃ rows, st.rows = some rows ∧ st.idx < rows.length) →
      (∀ st ∈ s.streams, ∀ rows, st.rows = some rows → st.idx < rows.length →
        ∃ i, ∃ hi : i < rows.length, st.idx ≤ i ∧ t ≤ (rows.get ⟨i, hi⟩).ts) →
      (jump_to_time s t).1 = true ∧
      t ≤ (jump_to_time s t).2.current_time ∧
      (∃ sd ∈ collectData (jumpAll t s.streams),
        sd.2.ts = (jump_to_time s t).2.current_time) ∧
      (∀ sd ∈ collectData (jumpAll t s.streams),
        (jump_to_time s t).2.current_time ≤ sd.2.ts) := by
    intro hex hall
    obtain ⟨st0, hst0, rows0, hrows0, hidx0⟩ := hex
    obtain ⟨i0, hi0, hge0, hts0⟩ := hall st0 hst0 rows0 hrows0 hidx0
    obtain ⟨j0, hf0⟩ := findFirstGE_drop_some t rows0 st0.idx i0 hi0 hge0 hts0
    obtain ⟨hj0, hone0⟩ := jumpOne_of_match t st0 rows0 hrows0 j0 hf0
    have hany : jumpAny t s.streams = true :=
      List.any_eq_true.mpr ⟨st0, hst0, by rw [hone0]⟩
    have hjt : jump_to_time s t =
        nextStep { s with streams := jumpAll t s.streams } := by
      simp [jump_to_time, hany]
    have hdata : ∀ sd ∈ collectData (jumpAll t s.streams), t ≤ sd.2.ts := by
      intro sd hsd
      obtain ⟨st2, hst2m, hsome⟩ := mem_collectData _ _ hsd
      have hst2 : st2 ∈ s.streams.map (fun st => (jumpOne t st).1) := hst2m
      obtain ⟨st, hst, rfl⟩ := List.mem_map.mp hst2
      obtain ⟨rows2, hrows2, hidx2, hsd_eq⟩ := stepOne_some_inv _ sd hsome
      have hrows_st : st.rows = some rows2 := by
        rw [← (jumpOne_shape t st).2.1]
        exact hrows2
      by_cases hun : st.idx < rows2.length
      · obtain ⟨i1, hi1, hge1, hts1⟩ := hall st hst rows2 hrows_st hun
        obtain ⟨j1, hf1⟩ := findFirstGE_drop_some t rows2 st.idx i1 hi1 hge1 hts1
        obtain ⟨hj1, hone1⟩ := jumpOne_of_match t st rows2 hrows_st j1 hf1
        obtain ⟨hjlt1, hts2, _⟩ := findFirstGE_some t _ j1 hf1
        have hlen2 : (rows2.drop st.idx).length = rows2.length - st.idx := by simp
        have hgetj : (rows2.drop st.idx).get ⟨j1, hjlt1⟩ =
            rows2.get ⟨st.idx + j1, hj1⟩ := by
          simp [List.get_eq_getElem, List.getElem_drop]
        have hidx_eq : (jumpOne t st).1.idx = st.idx + j1 := by rw [hone1]
        have hget_eq : rows2.get ⟨(jumpOne t st).1.idx, hidx2⟩ =
            rows2.get ⟨st.idx + j1, hj1⟩ := by
          congr 1
          exact Fin.ext hidx_eq
        rw [hsd_eq]
        show t ≤ (rows2.get ⟨(jumpOne t st).1.idx, hidx2⟩).ts
        rw [hget_eq, ← hgetj]
        exact hts2
      · push_neg at hun
        have hfalse : (jumpOne t st).2 = false := by
          simp [jumpOne, hrows_st, hun]
        have hfst := jumpOne_false_fst t st hfalse
        rw [hfst] at hidx2
        omega
    have hmem0 : (jumpOne t st0).1 ∈ jumpAll t s.streams :=
      List.mem_map_of_mem _ hst0
    have hstep0 := stepOne_of_avail (jumpOne t st0).1 rows0
      (by rw [hone0]; exact hrows0) (by rw [hone0]; exact hj0)
    have hmemdata := mem_collectData_of (jumpAll t s.streams) _ _ hmem0 hstep0.2
    obtain ⟨m, hm⟩ : ∃ m, minTs (collectData (jumpAll t s.streams)) = some m := by
      cases hmt : minTs (collectData (jumpAll t s.streams)) with
      | none =>
        rw [(minTs_eq_none_iff _).mp hmt] at hmemdata
        exact absurd hmemdata (List.not_mem_nil _)
      | some m0 => exact ⟨m0, rfl⟩
    have hns := nextStep_of_some { s with streams := jumpAll t s.streams } m hm
    have htime : (jump_to_time s t).2.current_time = m := by
      rw [hjt]
      exact nextStep_time_of_some _ _ hm
    refine ⟨by rw [hjt]; exact hns.1, ?_, ?_, ?_⟩
    · rw [htime]
      obtain ⟨sd, hsd, hts⟩ := minTs_mem _ m hm
      calc t ≤ sd.2.ts := hdata sd hsd
        _ = m := hts
    · rw [htime]
      exact minTs_mem _ m hm
    · rw [htime]
      exact minTs_le _ m hm
  refine ⟨hA, ?_, hC, ?_⟩
  · intro st hst hall
    exact jumpOne_false_fst t st ((jumpOne_false_iff t st).mpr hall)
  · intro q hq hex hall
    have hws : wait_seconds s q = jump_to_time s t := by
      simp only [wait_seconds, SimulationEngine.next, hq]
    have h := hC hex hall
    rw [hws]
    exact ⟨h.1, h.2.1⟩

/-- Witness for claim C4's amended theorem: `wait_seconds(5)` reaches at
least the 5 s target both on the one-symbol engine whose next snapshot is at
10 s, and on the two-symbol engine where A's next snapshot is at 10 s and
B's at 7 s (every symbol with unconsumed data has one at or after the
target). -/
theorem c4_jump_to_time_amended_witness :
    ((wait_seconds c4State 5).1 = true ∧
      (5000000000 : Int) ≤ (wait_seconds c4State 5).2.current_time) ∧
    ((wait_seconds c4MultiState 5).1 = true ∧
      (5000000000 : Int) ≤ (wait_seconds c4MultiState 5).2.current_time) := by
  constructor
  · refine (c4_jump_to_time_amended c4State 5000000000).2.2.2 5
      (by rw [pyTrunc_five_seconds]; simp [c4State]) ?_ ?_
    · exact ⟨c4Stream, by simp [c4State], [c4Snap0, c4SnapLate], rfl, by decide⟩
    · intro st hst rows hrows hlt
      simp only [c4State, List.mem_singleton] at hst
      subst hst
      simp only [c4Stream, Option.some_inj] at hrows
      subst hrows
      exact ⟨1, by decide, by decide, by decide⟩
  · refine (c4_jump_to_time_amended c4MultiState 5000000000).2.2.2 5
      (by rw [pyTrunc_five_seconds]; simp [c4MultiState]) ?_ ?_
    · exact ⟨{ symbol := "A", rows := some [c4Snap0, c4SnapLate], idx := 1 },
        by simp [c4MultiState], [c4Snap0, c4SnapLate], rfl, by decide⟩
    · intro st hst rows hrows hlt
      simp only [c4MultiState, List.mem_cons, List.mem_singleton,
        List.not_mem_nil, or_false] at hst
      rcases hst with rfl | rfl
      · simp only [Option.some_inj] at hrows
        subst hrows
        exact ⟨1, by decide, by decide, by decide⟩
      · simp only [Option.some_inj] at hrows
        subst hrows
        exact ⟨1, by decide, by decide, by decide⟩

/-- Claim C3 (code bug): place a limit buy at 100, cancel it immediately
(before any advance), then advance past a snapshot with best ask 99. The
cancel FAILS (returns 1): `cancel_order` only consults the Active map and
the freshly placed order is still Pending; on the advance the order is
promoted and fills — an execution record is appended and the position is
changed to size 1, contradicting the claim's (and the spec scenario's)
"no fill, no execution record". -/
theorem c3_cancel_pending_fills :
    c3s1.pending_orders.map (fun o => (o.order_id, o.price)) = [(0, (100 : Rat))] ∧
    (cancel_order c3s1 0).2 = 1 ∧
    (nextStep (cancel_order c3s1 0).1).2.execution_history.length = 1 ∧
    (List.lookup "BTC" (nextStep (cancel_order c3s1 0).1).2.positions).map
      (fun p => p.size) = some (1 : Rat) := by
  simp only [c3s1, c3State, c3Snap, initPosition, runOp, place_order, cancel_order,
    nextStep, minTs,
    collectData, stepAll, stepOne, update_state, markFold, process_pending_orders,
    process_orders, processFold, processOneOrder, execute_order, draw_fill,
    apply_slippage, SimulationPosition.update_mark_price, SimulationPosition.add_trade,
    updateA, List.lookup, List.map, List.filterMap, List.foldl, List.filter, List.any]
  norm_num

/-! Preservation of the wallet-bookkeeping invariant. -/

theorem execute_order_fee_delta (s : SimulationEngine) (o : SimulationOrder)
    (q p : Rat) :
    (execute_order s o q p).wallet_balance =
      s.wallet_balance - |q| * p *
        (if o.order_type = OrderType.Limit then s.maker_fee else s.taker_fee) ∧
    feeSum (execute_order s o q p) =
      feeSum s + |q| * p *
        (if o.order_type = OrderType.Limit then s.maker_fee else s.taker_fee) := by
  constructor
  · rfl
  · simp [execute_order, feeSum]

theorem execute_order_walletInv (s : SimulationEngine) (o : SimulationOrder)
    (q p : Rat) (h : walletInv s) : walletInv (execute_order s o q p) := by
  have hd := execute_order_fee_delta s o q p
  have hi : (execute_order s o q p).initial_balance = s.initial_balance := rfl
  unfold walletInv
  rw [hd.1, hi, hd.2, h]
  unfold walletInv at h
  ring

theorem processOneOrder_walletInv (s : SimulationEngine) (o : SimulationOrder)
    (h : walletInv s) : walletInv (processOneOrder s o).1 := by
  simp only [processOneOrder]
  repeat' split
  all_goals first
    | exact h
    | exact execute_order_walletInv _ _ _ _ h

theorem processFold_foldl_walletInv :
    ∀ (l : List SimulationOrder) (acc : SimulationEngine × List Nat),
    walletInv acc.1 → walletInv (l.foldl processFold acc).1 := by
  intro l
  induction l with
  | nil => intro acc h; exact h
  | cons o rest ih =>
    intro acc h
    simp only [List.foldl_cons]
    exact ih (processFold acc o) (processOneOrder_walletInv acc.1 o h)

theorem process_orders_walletInv (s : SimulationEngine) (h : walletInv s) :
    walletInv (process_orders s) :=
  processFold_foldl_walletInv s.orders (s, ([] : List Nat)) h

theorem markFold_walletInv (data : List (String × Snapshot)) (s : SimulationEngine)
    (h : walletInv s) : walletInv (markFold data s) := by
  have hf := markFold_frame data s
  unfold walletInv feeSum at h ⊢
  rw [hf.2.2.2.2.2.1, hf.2.2.2.2.2.2.1, hf.2.2.2.2.2.2.2]
  exact h

theorem update_state_walletInv (s : SimulationEngine) (t : Int)
    (data : List (String × Snapshot)) (h : walletInv s) :
    walletInv (update_state s t data) := by
  have h1 : walletInv { s with current_time := t, current_data := data } := h
  have h2 := markFold_walletInv data _ h1
  have h3 : walletInv
      (process_pending_orders (markFold data
        { s with current_time := t, current_data := data })) := h2
  exact process_orders_walletInv _ h3

theorem nextStep_walletInv (s : SimulationEngine) (h : walletInv s) :
    walletInv (nextStep s).2 := by
  cases hmt : minTs (collectData s.streams) with
  | none => rw [(nextStep_of_none s hmt).2]; exact h
  | some m =>
    rw [(nextStep_of_some s m hmt).2]
    exact update_state_walletInv { s with streams := stepAll s.streams } m _ h

theorem jump_to_time_walletInv (s : SimulationEngine) (t : Int) (h : walletInv s) :
    walletInv (jump_to_time s t).2 := by
  by_cases hany : jumpAny t s.streams = true
  · simp only [jump_to_time, hany, if_true]
    exact nextStep_walletInv { s with streams := jumpAll t s.streams } h
  · simp only [jump_to_time, Bool.eq_false_iff.mpr (fun hx => hany hx), if_false]
    exact h

theorem place_order_walletInv (s : SimulationEngine) (sym : String) (qty : Rat)
    (price : Option Rat) (ty : OrderType) (h : walletInv s) :
    walletInv (runOp s (Op.placeOrder sym qty price ty)) := by
  simp only [runOp]
  split
  · rename_i r heq
    simp only [place_order] at heq
    split at heq
    · injection heq with h2
      rw [← h2]
      exact h
    · exact absurd heq (by simp)
  · exact h

theorem close_positions_walletInv :
    ∀ (symbols : List String) (s : SimulationEngine), walletInv s →
      walletInv (close_positions s symbols) := by
  intro symbols
  induction symbols with
  | nil => intro s h; exact h
  | cons sym rest ih =>
    intro s h
    simp only [close_positions, List.foldl_cons]
    have hstep : walletInv
        (match List.lookup sym s.positions with
         | some pos =>
           if pos.size ≠ 0 then
             match place_order s sym (-pos.size) none OrderType.Market with
             | Except.ok r => r.1
             | Except.error _ => s
           else s
         | none => s) := by
      repeat' split
      all_goals try exact h
      rename_i r heq
      simp only [place_order] at heq
      split at heq
      · injection heq with h2
        rw [← h2]
        exact h
      · exact absurd heq (by simp)
    exact ih _ hstep

theorem runOp_walletInv (s : SimulationEngine) (op : Op) (h : walletInv s) :
    walletInv (runOp s op) := by
  cases op with
  | next => exact nextStep_walletInv s h
  | nextTo t => exact jump_to_time_walletInv s t h
  | wait q => exact jump_to_time_walletInv s _ h
  | waitSeconds q => exact jump_to_time_walletInv s _ h
  | waitMinutes q => exact jump_to_time_walletInv s _ h
  | placeOrder sym qty price ty => exact place_order_walletInv s sym qty price ty h
  | cancelOrder id =>
    simp only [runOp, cancel_order]
    split
    · exact h
    · exact h
  | cancelAllOrders sym => exact h
  | closePositions syms => exact close_positions_walletInv syms s h
  | setLeverage sym lev => exact h

theorem runOps_walletInv (ops : List Op) :
    ∀ s, walletInv s → walletInv (ops.foldl runOp s) := by
  induction ops with
  | nil => intro s h; exact h
  | cons op rest ih => intro s h; exact ih _ (runOp_walletInv s op h)

/-- Claim C6: across any sequence of facade operations the wallet balance
stays equal to the initial balance minus the sum of the booked execution
fees (no operation other than a fill changes the wallet, because the wallet
stays tied to the fee ledger); and each fill decreases the wallet by exactly
`|qty| * fill_price * fee_rate` with the maker fee for Limit orders and the
taker fee for Market orders, booking exactly that fee. -/
theorem c6_wallet_bookkeeping (s : SimulationEngine) (ops : List Op)
    (h : walletInv s) :
    walletInv (ops.foldl runOp s) ∧
    ∀ (s2 : SimulationEngine) (o : SimulationOrder) (q p : Rat),
      (execute_order s2 o q p).wallet_balance =
        s2.wallet_balance - |q| * p *
          (if o.order_type = OrderType.Limit then s2.maker_fee else s2.taker_fee) ∧
      feeSum (execute_order s2 o q p) =
        feeSum s2 + |q| * p *
          (if o.order_type = OrderType.Limit then s2.maker_fee else s2.taker_fee) :=
  ⟨runOps_walletInv ops s h, fun s2 o q p => execute_order_fee_delta s2 o q p⟩

/-- Witness for claim C6: the freshly constructed engine satisfies the
invariant, and it is preserved across a concrete operation sequence (a
placed market order, two steps, a wait). -/
theorem c6_wallet_bookkeeping_witness :
    walletInv ([Op.placeOrder "BTC" 1 none OrderType.Market, Op.next,
      Op.waitSeconds 1, Op.next].foldl runOp c6State) ∧
    ∀ (s2 : SimulationEngine) (o : SimulationOrder) (q p : Rat),
      (execute_order s2 o q p).wallet_balance =
        s2.wallet_balance - |q| * p *
          (if o.order_type = OrderType.Limit then s2.maker_fee else s2.taker_fee) ∧
      feeSum (execute_order s2 o q p) =
        feeSum s2 + |q| * p *
          (if o.order_type = OrderType.Limit then s2.maker_fee else s2.taker_fee) :=
  c6_wallet_bookkeeping c6State _ (by norm_num [walletInv, feeSum, c6State])

/-! Preservation of the monotone-time invariant. -/

theorem stepOne_fst_rows (st : SymbolStream) :
    (stepOne st).1.rows = st.rows ∧ (stepOne st).1.symbol = st.symbol := by
  simp only [stepOne]
  repeat' split
  all_goals exact ⟨rfl, rfl⟩

theorem stepOne_none_fst (st : SymbolStream) (h : (stepOne st).2 = none) :
    (stepOne st).1 = st := by
  cases hr : st.rows with
  | none => simp [stepOne, hr]
  | some rows =>
    cases hq : rows[st.idx]? with
    | none => simp [stepOne, hr, hq]
    | some row => simp [stepOne, hr, hq] at h

theorem nextStep_TimeInv (s : SimulationEngine) (h : TimeInv s) :
    TimeInv (nextStep s).2 ∧ s.current_time ≤ (nextStep s).2.current_time := by
  obtain ⟨hsort, hle⟩ := h
  cases hmt : minTs (collectData s.streams) with
  | none =>
    rw [(nextStep_of_none s hmt).2]
    exact ⟨⟨hsort, hle⟩, le_refl _⟩
  | some m =>
    have hns := nextStep_of_some s m hmt
    have hus := update_state_fields { s with streams := stepAll s.streams } m
      (collectData s.streams)
    have hstreams : (nextStep s).2.streams = stepAll s.streams := by
      rw [hns.2]; exact hus.2.2.1
    have htime : (nextStep s).2.current_time = m := by
      rw [hns.2]; exact hus.1
    have hdata_ge : ∀ sd ∈ collectData s.streams, s.current_time ≤ sd.2.ts := by
      intro sd hsd
      obtain ⟨st, hst, hsome⟩ := mem_collectData _ _ hsd
      obtain ⟨rows, hrows, hidx, rfl⟩ := stepOne_some_inv st sd hsome
      exact hle st hst rows hrows ⟨st.idx, hidx⟩ (le_refl _)
    have hmono : s.current_time ≤ m := by
      obtain ⟨sd, hsd, hts⟩ := minTs_mem _ m hmt
      calc s.current_time ≤ sd.2.ts := hdata_ge sd hsd
        _ = m := hts
    refine ⟨⟨?_, ?_⟩, by rw [htime]; exact hmono⟩
    · intro st' hst' rows hrows
      rw [hstreams] at hst'
      have hst2 : st' ∈ s.streams.map (fun st => (stepOne st).1) := hst'
      obtain ⟨st, hst, rfl⟩ := List.mem_map.mp hst2
      have hr := (stepOne_fst_rows st).1
      exact hsort st hst rows (by rw [← hr]; exact hrows)
    · intro st' hst' rows hrows i hge
      rw [htime]
      rw [hstreams] at hst'
      have hst2 : st' ∈ s.streams.map (fun st => (stepOne st).1) := hst'
      obtain ⟨st, hst, rfl⟩ := List.mem_map.mp hst2
      cases hsome : (stepOne st).2 with
      | none =>
        have hfst := stepOne_none_fst st hsome
        rw [hfst] at hrows hge
        have hdone := (stepOne_none_iff st).mp hsome rows hrows
        exact absurd i.2 (by omega)
      | some sd =>
        obtain ⟨rows0, hrows0, hidx0, hsd⟩ := stepOne_some_inv st sd hsome
        have hfst := (stepOne_of_avail st rows0 hrows0 hidx0).1
        rw [hfst] at hrows hge
        have hrows2 : st.rows = some rows := hrows
        have hge2 : st.idx + 1 ≤ (i : Nat) := hge
        rw [hrows0, Option.some_inj] at hrows2
        subst hrows2
        have hsdmem := mem_collectData_of s.streams st sd hst hsome
        have hm_le := minTs_le _ m hmt sd hsdmem
        have hsorted := hsort st hst rows0 hrows0
        calc m ≤ sd.2.ts := hm_le
          _ = (rows0.get ⟨st.idx, hidx0⟩).ts := by rw [hsd]
          _ ≤ (rows0.get i).ts := hsorted ⟨st.idx, hidx0⟩ i (by show st.idx ≤ (i : Nat); omega)

theorem jump_state_TimeInv (s : SimulationEngine) (t : Int) (h : TimeInv s) :
    TimeInv { s with streams := jumpAll t s.streams } := by
  obtain ⟨hsort, hle⟩ := h
  constructor
  · intro st' hst' rows hrows
    have hst2 : st' ∈ s.streams.map (fun st => (jumpOne t st).1) := hst'
    obtain ⟨st, hst, rfl⟩ := List.mem_map.mp hst2
    have hr := (jumpOne_shape t st).2.1
    exact hsort st hst rows (by rw [← hr]; exact hrows)
  · intro st' hst' rows hrows i hge
    have hst2 : st' ∈ s.streams.map (fun st => (jumpOne t st).1) := hst'
    obtain ⟨st, hst, rfl⟩ := List.mem_map.mp hst2
    have hsh := jumpOne_shape t st
    have hrows2 : st.rows = some rows := by rw [← hsh.2.1]; exact hrows
    have hge2 : st.idx ≤ (i : Nat) := le_trans hsh.2.2 hge
    exact hle st hst rows hrows2 i hge2

theorem jump_to_time_TimeInv (s : SimulationEngine) (t : Int) (h : TimeInv s) :
    TimeInv (jump_to_time s t).2 ∧
    s.current_time ≤ (jump_to_time s t).2.current_time := by
  by_cases hany : jumpAny t s.streams = true
  · simp only [jump_to_time, hany, if_true]
    exact nextStep_TimeInv _ (jump_state_TimeInv s t h)
  · simp only [jump_to_time, Bool.eq_false_iff.mpr (fun hx => hany hx), if_false]
    exact ⟨h, le_refl _⟩

theorem close_positions_time :
    ∀ (symbols : List String) (s : SimulationEngine), TimeInv s →
      TimeInv (close_positions s symbols) ∧
      (close_positions s symbols).current_time = s.current_time := by
  intro symbols
  induction symbols with
  | nil => intro s h; exact ⟨h, rfl⟩
  | cons sym rest ih =>
    intro s h
    simp only [close_positions, List.foldl_cons]
    have hstep : TimeInv
        (match List.lookup sym s.positions with
         | some pos =>
           if pos.size ≠ 0 then
             match place_order s sym (-pos.size) none OrderType.Market with
             | Except.ok r => r.1
             | Except.error _ => s
           else s
         | none => s) ∧
        (match List.lookup sym s.positions with
         | some pos =>
           if pos.size ≠ 0 then
             match place_order s sym (-pos.size) none OrderType.Market with
             | Except.ok r => r.1
             | Except.error _ => s
           else s
         | none => s).current_time = s.current_time := by
      repeat' split
      all_goals try exact ⟨h, rfl⟩
      rename_i r heq
      simp only [place_order] at heq
      split at heq
      · injection heq with h2
        rw [← h2]
        exact ⟨h, rfl⟩
      · exact absurd heq (by simp)
    have hrest := ih _ hstep.1
    exact ⟨hrest.1, hrest.2.trans hstep.2⟩

/-- Claim C7: `current_time` never decreases — for every engine satisfying
the load-time invariant (each stream sorted by `ts`, current time at or
before every unconsumed snapshot) and every facade operation (`next`,
`next(target)`, `wait`, `wait_seconds`, `wait_minutes`, order placement or
cancellation, position closing, leverage), the invariant is preserved and
the new `current_time` is at least the old one. -/
theorem c7_monotone_time (s : SimulationEngine) (op : Op) (h : TimeInv s) :
    TimeInv (runOp s op) ∧ s.current_time ≤ (runOp s op).current_time := by
  cases op with
  | next => exact nextStep_TimeInv s h
  | nextTo t => exact jump_to_time_TimeInv s t h
  | wait q => exact jump_to_time_TimeInv s _ h
  | waitSeconds q => exact jump_to_time_TimeInv s _ h
  | waitMinutes q => exact jump_to_time_TimeInv s _ h
  | placeOrder sym qty price ty =>
    simp only [runOp]
    split
    · rename_i r heq
      simp only [place_order] at heq
      split at heq
      · injection heq with h2
        rw [← h2]
        exact ⟨h, le_refl _⟩
      · exact absurd heq (by simp)
    · exact ⟨h, le_refl _⟩
  | cancelOrder id =>
    simp only [runOp, cancel_order]
    split
    · exact ⟨h, le_refl _⟩
    · exact ⟨h, le_refl _⟩
  | cancelAllOrders sym => exact ⟨h, le_refl _⟩
  | closePositions syms =>
    have hc := close_positions_time syms s h
    exact ⟨hc.1, hc.2.ge⟩
  | setLeverage sym lev => exact ⟨h, le_refl _⟩

/-- Witness for claim C7: the trivially invariant engine stepped once. -/
theorem c7_monotone_time_witness :
    TimeInv (runOp c7State Op.next) ∧
    c7State.current_time ≤ (runOp c7State Op.next).current_time :=
  c7_monotone_time c7State Op.next
    ⟨fun st hst => absurd hst (by simp [c7State]),
     fun st hst => absurd hst (by simp [c7State])⟩

end Dspy
